import Mathlib

/-
Verification of the CertIntel extraction-and-recommendation pipeline
(src/src/certificate_processor.py) against its design specification.

The pipeline is pure string/list manipulation around three I/O boundaries,
which are modelled as explicit parameters:
  * the OCR engine and the region detector (outcomes passed in as values),
  * the Cohere chat endpoint (its response passed in as a value of
    `CohereResponse`, mirroring the dict shapes returned by
    query_llm_for_detailed_suggestions),
  * image loading / PDF rasterisation (each input item carries the outcome
    of its load phase).
Everything downstream of those boundaries is translated line by line from the
Python source.  Python semantics used by the source (str.strip, str.split,
str.title, str.replace, re.search with lazy groups, dict comprehensions with
later-keys-win, list.sort stability, sorted sets) are reproduced by the
helper functions below; each helper names the Python construct it models.
Scanning helpers whose recursion consumes a matched pattern take a fuel
argument so that they stay structurally recursive and computable by the
kernel; callers always pass fuel larger than the input length, which the
scanner can never exhaust since every step consumes at least one character.
-/

set_option maxHeartbeats 4000000

/-- Characters Python treats as whitespace in str.strip, str.split and the
regex class backslash-s (ASCII range, the only one exercised here). -/
def pyWs (c : Char) : Bool :=
  c = ' ' || c = '\t' || c = '\n' || c = '\r' || c = '\x0b' || c = '\x0c'

/-- Build a String back from a character list. -/
def mkStr (l : List Char) : String := ⟨l⟩

/-- Python str.strip on a character list. -/
def stripL (l : List Char) : List Char :=
  ((l.dropWhile pyWs).reverse.dropWhile pyWs).reverse

/-- Python str.strip. -/
def pyStrip (s : String) : String := mkStr (stripL s.data)

/-- Python str.lower on a character list (ASCII, as exercised here). -/
def pyLowerL (l : List Char) : List Char := l.map Char.toLower

/-- Python str.lower. -/
def pyLower (s : String) : String := mkStr (pyLowerL s.data)

/-- Case-sensitive list prefix test (Python str.startswith). -/
def isPre : List Char → List Char → Bool
  | [], _ => true
  | _ :: _, [] => false
  | p :: ps, h :: t => p == h && isPre ps t

/-- Case-insensitive list prefix test (re.IGNORECASE literal matching). -/
def isPreCI : List Char → List Char → Bool
  | [], _ => true
  | _ :: _, [] => false
  | p :: ps, h :: t => p.toLower == h.toLower && isPreCI ps t

/-- Python substring containment, the `in` operator on strings. -/
def hasSub (pat : List Char) : List Char → Bool
  | [] => isPre pat []
  | h :: t => isPre pat (h :: t) || hasSub pat t

/-- Python str.replace (every non-overlapping occurrence, left to right).
Fuel bounds the recursion depth; every step consumes at least one input
character, so fuel = length + 1 (what replaceAll passes) cannot run out. -/
def replaceFuel (pat repl : List Char) : Nat → List Char → List Char
  | 0, l => l
  | _ + 1, [] => []
  | fuel + 1, h :: t =>
    if pat ≠ [] && isPre pat (h :: t) then
      repl ++ replaceFuel pat repl fuel (List.drop (pat.length - 1) t)
    else
      h :: replaceFuel pat repl fuel t

/-- Python s.replace(pat, repl). -/
def replaceAll (s pat repl : String) : String :=
  mkStr (replaceFuel pat.data repl.data (s.data.length + 1) s.data)

/-- Python str.split() (no argument): split on whitespace runs, dropping
empty pieces.  cur accumulates the current word reversed. -/
def wordsAux (cur : List Char) : List Char → List (List Char)
  | [] => if cur = [] then [] else [cur.reverse]
  | h :: t =>
    if pyWs h then
      (if cur = [] then wordsAux [] t else cur.reverse :: wordsAux [] t)
    else wordsAux (h :: cur) t

/-- Python str.split() with no argument. -/
def pyWords (s : String) : List String := (wordsAux [] s.data).map mkStr

/-- Python str.split(sep) for a one-character separator. -/
def splitCharAux (c : Char) (cur : List Char) : List Char → List (List Char)
  | [] => [cur.reverse]
  | h :: t =>
    if h = c then cur.reverse :: splitCharAux c [] t
    else splitCharAux c (h :: cur) t

/-- Python str.title (ASCII): a letter after a non-letter is uppercased,
a letter after a letter is lowercased. -/
def titleAux (prevAlpha : Bool) : List Char → List Char
  | [] => []
  | h :: t =>
    if h.isAlpha then
      (if prevAlpha then h.toLower else h.toUpper) :: titleAux true t
    else h :: titleAux false t

/-- Python str.title. -/
def pyTitle (s : String) : String := mkStr (titleAux false s.data)

/-- Python str.splitlines (the line terminators exercised here). -/
def splitlinesAux (cur : List Char) : List Char → List (List Char)
  | [] => if cur = [] then [] else [cur.reverse]
  | '\r' :: '\n' :: t => cur.reverse :: splitlinesAux [] t
  | '\r' :: t => cur.reverse :: splitlinesAux [] t
  | '\n' :: t => cur.reverse :: splitlinesAux [] t
  | h :: t => splitlinesAux (h :: cur) t

/-- Python str.splitlines. -/
def pySplitlines (s : String) : List String := (splitlinesAux [] s.data).map mkStr

/-- Python isalnum test for one character (ASCII). -/
def pyAlnum (c : Char) : Bool := c.isAlphanum

/-- Python str.isalnum: non-empty and every character alphanumeric. -/
def pyIsAlnum (s : String) : Bool := s ≠ "" && s.data.all pyAlnum

/-- re.sub of backslash-s* cent-sign backslash-s* with the empty string:
drops every cent sign together with the whitespace around it.  At each
position the regex matches exactly when the maximal whitespace run starting
there is followed by a cent sign.  Fuel as in replaceFuel. -/
def centFuel : Nat → List Char → List Char
  | 0, l => l
  | _ + 1, [] => []
  | fuel + 1, h :: t =>
    match (h :: t).dropWhile pyWs with
    | '¢' :: r2 => centFuel fuel (r2.dropWhile pyWs)
    | _ => h :: centFuel fuel t

/-- re.sub(r"backslash-s* cent backslash-s*", "", s). -/
def centSub (s : String) : String := mkStr (centFuel (s.data.length + 1) s.data)

/-- re.sub of backslash-s+ with a single space: collapse whitespace runs. -/
def collapseAux (prevWs : Bool) : List Char → List Char
  | [] => []
  | h :: t =>
    if pyWs h then
      (if prevWs then collapseAux true t else ' ' :: collapseAux true t)
    else h :: collapseAux false t

/-- re.sub(r"backslash-s+", " ", s). -/
def collapseWs (s : String) : String := mkStr (collapseAux false s.data)

/-- re.split on a literal separator (non-overlapping, left to right).
Fuel as in replaceFuel. -/
def splitSubFuel (sep : List Char) (cur : List Char) : Nat → List Char → List (List Char)
  | 0, l => [cur.reverse ++ l]
  | _ + 1, [] => [cur.reverse]
  | fuel + 1, h :: t =>
    if sep ≠ [] && isPre sep (h :: t) then
      cur.reverse :: splitSubFuel sep [] fuel (List.drop (sep.length - 1) t)
    else
      splitSubFuel sep (h :: cur) fuel t

/-- re.split(sep, s) for a literal sep. -/
def splitOnStr (sep : String) (s : String) : List String :=
  (splitSubFuel sep.data [] (s.data.length + 1) s.data).map mkStr

/-- Regex word-character class backslash-w (ASCII). -/
def isWordChar (c : Char) : Bool := c.isAlphanum || c = '_'

/-- Does the word-bounded literal pattern match exactly at the head of l?
prev is the character before l in the full text (none at the start).
Models backslash-b pat backslash-b: a word boundary holds where the
word-character property changes (text edges count as non-word). -/
def wbMatchAt (pat : List Char) (prev : Option Char) (l : List Char) : Bool :=
  isPre pat l &&
  (match pat.head? with
   | none => true
   | some p0 =>
     (match prev with | none => false | some c => isWordChar c) != isWordChar p0) &&
  (match pat.getLast? with
   | none => true
   | some pl =>
     isWordChar pl !=
       (match (List.drop pat.length l).head? with | none => false | some c => isWordChar c))

/-- re.search of a word-bounded literal pattern anywhere in the text. -/
def wbAux (pat : List Char) (prev : Option Char) : List Char → Bool
  | [] => false
  | h :: t => wbMatchAt pat prev (h :: t) || wbAux pat (some h) t

/-- Module-level known-course list (certificate_processor.py line 61). -/
def possible_courses : List String :=
  ["HTML", "CSS", "JavaScript", "React", "Astro.js", "Python", "Flask",
   "C Programming", "Kotlin", "Ethical Hacking", "Networking", "Node.js",
   "Machine Learning", "Data Structures", "Operating Systems", "Next.js",
   "Remix", "Express.js", "MongoDB", "Docker", "Kubernetes", "Tailwind CSS",
   "Django", "Typescript"]

/-- Module-level course keyword set (certificate_processor.py line 35). -/
def course_keywords : List String :=
  ["course", "certification", "developer", "programming", "bootcamp",
   "internship", "award", "degree", "diploma", "training"]

/-- The NLTK English stopword list loaded at module import
(stop_words = set(stopwords.words(english)), certificate_processor.py
line 34); the classic 127-entry list, contraction-free forms. -/
def stop_words : List String :=
  ["i", "me", "my", "myself", "we", "our", "ours", "ourselves", "you",
   "your", "yours", "yourself", "yourselves", "he", "him", "his", "himself",
   "she", "her", "hers", "herself", "it", "its", "itself", "they", "them",
   "their", "theirs", "themselves", "what", "which", "who", "whom", "this",
   "that", "these", "those", "am", "is", "are", "was", "were", "be", "been",
   "being", "have", "has", "had", "having", "do", "does", "did", "doing",
   "a", "an", "the", "and", "but", "if", "or", "because", "as", "until",
   "while", "of", "at", "by", "for", "with", "about", "against", "between",
   "into", "through", "during", "before", "after", "above", "below", "to",
   "from", "up", "down", "in", "out", "on", "off", "over", "under", "again",
   "further", "then", "once", "here", "there", "when", "where", "why",
   "how", "all", "any", "both", "each", "few", "more", "most", "other",
   "some", "such", "no", "nor", "not", "only", "own", "same", "so", "than",
   "too", "very", "s", "t", "can", "will", "just", "don", "should", "now"]

/-- Boilerplate phrases stripped by the filter
(certificate_processor.py line 282). -/
def phrases_to_remove : List String :=
  ["certificate of completion", "certificate of achievement",
   "is awarded to", "has successfully completed"]

/-- extract_course_names_from_text (certificate_processor.py lines 265-272):
whole-word, case-insensitive scan of the fixed known-course list. -/
def extract_course_names_from_text (text : String) : List String :=
  if text = "" then []
  else
    ((possible_courses.filter
        (fun course => wbAux (pyLower course).data none (pyLower text).data))).dedup

/-- Body of the per-line loop of filter_and_verify_course_text
(certificate_processor.py lines 296-321), folded over the candidate lines. -/
def filterLineStep (text : String) (identified : List String) (line_text : String) :
    List String :=
  if line_text = "" || stop_words.contains (pyLower line_text) then identified
  else
    match possible_courses.find? (fun pc => hasSub (pyLower pc).data (pyLower line_text).data) with
    | some pc => if identified.contains pc then identified else identified ++ [pc]
    | none =>
      let words_in_line := pyWords line_text
      let is_plausible_new_course :=
        (course_keywords.any (fun kw => hasSub kw.data line_text.data)) &&
        !(words_in_line.all (fun w =>
            course_keywords.contains w || stop_words.contains w || !(pyIsAlnum w))) &&
        (2 ≤ words_in_line.length && words_in_line.length ≤ 7) &&
        (words_in_line.any (fun w => !(stop_words.contains (pyLower w)) && 2 < w.length))
      let is_short_llm_like_input :=
        (pyWords text).length ≤ 7 && !(text.data.contains '\n')
      if is_plausible_new_course || (is_short_llm_like_input && line_text = pyLower text) then
        let title_cased_line := pyTitle line_text
        if identified.contains title_cased_line then identified
        else if title_cased_line ≠ "" then identified ++ [title_cased_line ++ " [UNVERIFIED]"]
        else identified
      else identified

/-- filter_and_verify_course_text (certificate_processor.py lines 274-323).
list(set(...)) results are modelled as first-occurrence dedup; every
downstream consumer treats them as unordered (membership, or a final
sorted(list(set(...)))), so the choice of representative order is benign. -/
def filter_and_verify_course_text (text_input : String) : List String :=
  if text_input = "" || (pyStrip text_input).length < 3 then []
  else
    let text := pyStrip (centSub (pyStrip text_input))
    if text = "" then []
    else
      let temp_text :=
        phrases_to_remove.foldl (fun acc ph => replaceAll acc ph "") (pyLower text)
      let lines0 := (splitCharAux '\n' [] temp_text.data).map stripL
      let potential_course_lines :=
        ((lines0.filter (fun l => 4 < l.length)).map mkStr) ++
        (if (pyWords text).length ≤ 7 && !(text.data.contains '\n')
         then [pyLower text] else [])
      let direct := extract_course_names_from_text text
      (potential_course_lines.foldl (filterLineStep text) direct).dedup

/-- One suggested next course.  LLM-parsed suggestions carry name,
description and url; static-graph suggestions additionally carry the
search_query field of the graph table. -/
structure Suggestion where
  name : String
  description : String
  url : String
  search_query : Option String := none
deriving DecidableEq, Repr

/-- One parsed block of the batched-suggestion LLM response
(parse_llm_detailed_suggestions_response item shape). -/
structure ParsedItem where
  original_input_course_from_llm : String
  ai_description : Option String
  llm_suggestions : List Suggestion
deriving DecidableEq, Repr

/-- re.search of key backslash-s* lazy-group newline (IGNORECASE), the
shape of the Original Input Course / Name / Description line matchers
(certificate_processor.py lines 397, 443, 444).  Returns the raw group:
after the first occurrence of the key, the maximal whitespace run is
consumed greedily; the group runs to the next newline.  If no newline
follows the whitespace run the engine backtracks into the run, producing
an empty group when the run itself holds a newline, and fails otherwise
(later key occurrences cannot succeed either, since any newline after
them also lies after the first occurrence). -/
def keyLazySearch (key : List Char) : List Char → Option (List Char)
  | [] => none
  | h :: t =>
    if isPreCI key (h :: t) then
      let rest := List.drop key.length (h :: t)
      let r := rest.dropWhile pyWs
      if r.contains '\n' then some (r.takeWhile (fun c => c ≠ '\n'))
      else if (rest.takeWhile pyWs).contains '\n' then some []
      else none
    else keyLazySearch key t

/-- Everything before the first case-insensitive occurrence of pat
(the whole list when pat is absent). -/
def takeUntilCI (pat : List Char) : List Char → List Char
  | [] => []
  | h :: t => if isPreCI pat (h :: t) then [] else h :: takeUntilCI pat t

/-- re.search of the AI Description matcher (certificate_processor.py line
398, IGNORECASE with DOTALL): after the first occurrence of the key the
maximal whitespace run is consumed greedily; the lazy group then runs to
the first newline-Suggested Next Courses: terminator, or to the end of the
block (the backslash-Z alternative, which always lets the match succeed). -/
def descSearch : List Char → Option (List Char)
  | [] => none
  | h :: t =>
    if isPreCI "ai description:".data (h :: t) then
      let r := (List.drop 15 (h :: t)).dropWhile pyWs
      some (takeUntilCI "\nsuggested next courses:".data r)
    else descSearch t

/-- re.search of Suggested Next Courses: newline lazy-group dollar
(certificate_processor.py line 422, IGNORECASE with DOTALL): the group is
everything after the first occurrence of the key-plus-newline, except that
dollar also matches just before one final trailing newline, which the lazy
group therefore excludes. -/
def suggSearch : List Char → Option (List Char)
  | [] => none
  | h :: t =>
    if isPreCI "suggested next courses:\n".data (h :: t) then
      let r := List.drop 24 (h :: t)
      some (if r.getLast? = some '\n' then r.dropLast else r)
    else suggSearch t

/-- re.search of the URL matcher (certificate_processor.py line 445,
IGNORECASE): scans for an occurrence of URL: whose maximal following
whitespace run is followed by http:// or https:// (preferring the https
alternative) and at least one further non-whitespace character; the group
is the scheme plus the maximal non-whitespace run.  A failed occurrence
falls through to later occurrences (which start at least four characters
further on, so continuing the scan one character on is equivalent). -/
def urlSearch : List Char → Option (List Char)
  | [] => none
  | h :: t =>
    if isPreCI "url:".data (h :: t) then
      let r := (List.drop 3 t).dropWhile pyWs
      if isPreCI "https://".data r then
        match (List.drop 8 r).takeWhile (fun c => !(pyWs c)) with
        | [] => urlSearch t
        | run => some (r.take 8 ++ run)
      else if isPreCI "http://".data r then
        match (List.drop 7 r).takeWhile (fun c => !(pyWs c)) with
        | [] => urlSearch t
        | run => some (r.take 7 ++ run)
      else urlSearch t
    else urlSearch t

/-- Tail of the split pattern newline (optional dash backslash-s*) Name:
of certificate_processor.py line 429, tried just after a newline: the
optional dash group is greedy, and inside it the whitespace run must be
maximal since Name: cannot start with whitespace. Returns the remainder
after the separator when it matches. -/
def namePatTail (t : List Char) : Option (List Char) :=
  match t with
  | '-' :: t2 =>
    let r := t2.dropWhile pyWs
    if isPre "Name:".data r then some (List.drop 5 r) else none
  | _ => if isPre "Name:".data t then some (List.drop 5 t) else none

/-- re.split on the pattern of certificate_processor.py line 429
(case-sensitive).  Fuel as in replaceFuel. -/
def splitNameFuel (cur : List Char) : Nat → List Char → List (List Char)
  | 0, l => [cur.reverse ++ l]
  | _ + 1, [] => [cur.reverse]
  | fuel + 1, h :: t =>
    if h = '\n' then
      match namePatTail t with
      | some rest => cur.reverse :: splitNameFuel [] fuel rest
      | none => splitNameFuel (h :: cur) fuel t
    else splitNameFuel (h :: cur) fuel t

/-- Per-suggestion loop of certificate_processor.py lines 431-454.
blobStartsName records suggestions_blob.strip().lower().startswith(Name:),
which line 434 consults for an empty first split piece. -/
def parseSugLoop (blobStartsName : Bool) : Nat → List (List Char) → List Suggestion
  | _, [] => []
  | i, part :: rest =>
    let cleaned := stripL part
    if i = 0 && cleaned = [] && blobStartsName then
      parseSugLoop blobStartsName (i + 1) rest
    else
      let full := if isPreCI "name:".data cleaned then cleaned else "Name: ".data ++ cleaned
      match keyLazySearch "name:".data full, keyLazySearch "description:".data full,
            urlSearch full with
      | some n, some d, some u =>
        ⟨mkStr (stripL n), mkStr (stripL d), mkStr (stripL u), none⟩ ::
          parseSugLoop blobStartsName (i + 1) rest
      | _, _, _ => parseSugLoop blobStartsName (i + 1) rest

/-- Per-block body of the parser loop (certificate_processor.py lines
392-463): strip the block, require the echo-name line, then extract the
optional AI description and the suggestion list. -/
def parseBlock (b : String) : Option ParsedItem :=
  let bl := stripL b.data
  if bl = [] then none
  else
    match keyLazySearch "original input course:".data bl with
    | none => none
    | some g =>
      let original_input_course_from_llm := mkStr (stripL g)
      let ai_description :=
        match descSearch bl with
        | some d =>
          let dt := stripL d
          if pyLowerL dt ≠ "no ai description available.".data then some (mkStr dt) else none
        | none => none
      let llm_suggestions :=
        match suggSearch bl with
        | some g2 =>
          let blob := stripL g2
          if pyLowerL blob = "no specific suggestions available for this course.".data then []
          else
            parseSugLoop (isPreCI "name:".data blob) 0
              (splitNameFuel [] (blob.length + 1) blob)
        | none => []
      some ⟨original_input_course_from_llm, ai_description, llm_suggestions⟩

/-- The for block_text in main_blocks loop of
parse_llm_detailed_suggestions_response (lines 392-463): blocks that fail
to parse are skipped, parsed blocks are appended in order. -/
def processBlocks : List String → List ParsedItem
  | [] => []
  | b :: rest =>
    match parseBlock b with
    | none => processBlocks rest
    | some it => it :: processBlocks rest

/-- re.sub removing opening code fences: at each position a literal
triple-backtick, optionally followed by json or text (the alternation is
tried in that order), optionally followed by one newline, is deleted
(certificate_processor.py line 386).  Fuel as in replaceFuel. -/
def fence1Fuel : Nat → List Char → List Char
  | 0, l => l
  | _ + 1, [] => []
  | fuel + 1, h :: t =>
    if isPre "```".data (h :: t) then
      let r := List.drop 2 t
      let r := if isPre "json".data r then List.drop 4 r
               else if isPre "text".data r then List.drop 4 r
               else r
      let r := if r.head? = some '\n' then r.drop 1 else r
      fence1Fuel fuel r
    else h :: fence1Fuel fuel t

/-- re.sub removing closing code fences: one optional newline (greedy)
followed by a literal triple-backtick is deleted
(certificate_processor.py line 387).  Fuel as in replaceFuel. -/
def fence2Fuel : Nat → List Char → List Char
  | 0, l => l
  | _ + 1, [] => []
  | fuel + 1, h :: t =>
    if h = '\n' && isPre "```".data t then fence2Fuel fuel (List.drop 3 t)
    else if isPre "```".data (h :: t) then fence2Fuel fuel (List.drop 2 t)
    else h :: fence2Fuel fuel t

/-- parse_llm_detailed_suggestions_response
(certificate_processor.py lines 376-465). -/
def parse_llm_detailed_suggestions_response (llm_response_text : String) :
    List ParsedItem :=
  let s := pyLower (pyStrip llm_response_text)
  if llm_response_text = "" || s = "cohere llm not available." ||
     isPre "error from llm:".data s.data ||
     s = "no known course names provided for suggestions." then []
  else
    let c1 := replaceAll llm_response_text "\r\n" "\n"
    let c2 := mkStr (fence1Fuel (c1.data.length + 1) c1.data)
    let c3 := mkStr (fence2Fuel (c2.data.length + 1) c2.data)
    processBlocks (splitOnStr "\n---\n" c3)

/-- One suggestion bundle, the SuggestionRecord dict shape produced by the
Reconciler and fed back in as previous_user_data_list. -/
structure SuggestionRecord where
  identified_course_name : String
  description_from_graph : Option String
  ai_description : Option String
  llm_suggestions : List Suggestion
  llm_error : Option String
  processed_by : String
deriving DecidableEq, Repr

/-- One entry of the static course graph. -/
structure GraphEntry where
  description : String
  suggested_next_courses : List Suggestion
deriving DecidableEq, Repr

/-- The static course_graph table (certificate_processor.py lines 63-132). -/
def course_graph : List (String × GraphEntry) :=
  [("HTML",
    ⟨"HTML (HyperText Markup Language) is the standard language for creating webpages.",
     [⟨"Responsive Web Design Certification by freeCodeCamp",
       "Covers the basics of HTML and CSS with hands-on projects to build responsive websites.",
       "https://www.freecodecamp.org/learn/responsive-web-design/",
       some "responsive web design freecodecamp"⟩,
      ⟨"HTML5 and CSS3 Fundamentals by edX",
       "Learn how to build modern web pages using HTML5 and CSS3.",
       "https://www.edx.org/learn/html5",
       some "HTML5 CSS3 fundamentals edX"⟩]⟩),
   ("CSS",
    ⟨"CSS (Cascading Style Sheets) is used to style and layout web pages.",
     [⟨"Advanced CSS and Sass by Udemy",
       "Master advanced CSS animations, layouts, and Sass preprocessing.",
       "https://www.udemy.com/course/advanced-css-and-sass/",
       some "advanced css sass udemy"⟩,
      ⟨"Tailwind CSS From Scratch by Udemy",
       "Learn how to use Tailwind CSS to create modern UIs efficiently.",
       "https://www.udemy.com/course/tailwind-from-scratch/",
       some "tailwind css udemy"⟩]⟩),
   ("JavaScript",
    ⟨"JavaScript adds interactivity to websites and is essential for frontend development.",
     [⟨"JavaScript: Understanding the Weird Parts by Udemy",
       "Dive deep into JavaScript core mechanics like closures, prototypal inheritance, and more.",
       "https://www.udemy.com/course/understand-javascript/",
       some "javascript understanding weird parts"⟩,
      ⟨"Modern JavaScript from The Beginning by Udemy",
       "Learn JavaScript with projects covering DOM manipulation, ES6+, and asynchronous programming.",
       "https://www.udemy.com/course/modern-javascript-from-the-beginning/",
       some "modern javascript from the beginning"⟩]⟩),
   ("Python",
    ⟨"Python is a versatile programming language used in web, AI, and automation.",
     [⟨"Python for Everybody by University of Michigan (Coursera)",
       "An introduction to Python with focus on data handling, APIs, and databases.",
       "https://www.coursera.org/specializations/python",
       some "python for everybody coursera"⟩,
      ⟨"Automate the Boring Stuff with Python",
       "Practical course on using Python to automate everyday tasks like file manipulation and web scraping.",
       "https://automatetheboringstuff.com/",
       some "automate the boring stuff python"⟩]⟩)]

/-- cleaned_to_original_map.get(cleaned_name, cleaned_name)
(certificate_processor.py line 588); the map is passed as a function. -/
def originalOf (m : String → Option String) (c : String) : String := (m c).getD c

/-- Lookup in the cache_map dict comprehension of line 583: keyed by each
record's identified_course_name, later entries overwriting earlier ones,
queried with the exact original name string. -/
def cacheLookup : List SuggestionRecord → String → Option SuggestionRecord
  | [], _ => none
  | item :: rest, k =>
    match cacheLookup rest k with
    | some r => some r
    | none => if item.identified_course_name = k then some item else none

/-- Membership / indexing of the static graph dict (lines 604-606). -/
def graphLookup (c : String) : Option GraphEntry :=
  (course_graph.find? (fun p => p.1 == c)).map (fun p => p.2)

/-- The per-name resolution loop of generate_suggestions_from_known_courses
(certificate_processor.py lines 587-619): returns the cache/graph output
records (in input order) and the batch of names left for the LLM. -/
def reconcilePass (m : String → Option String) (previous_user_data_list : List SuggestionRecord)
    (force_refresh_for_courses : List String) :
    List String → List SuggestionRecord × List String
  | [] => ([], [])
  | cleaned_name :: rest =>
    let original_name := originalOf m cleaned_name
    let res := reconcilePass m previous_user_data_list force_refresh_for_courses rest
    if force_refresh_for_courses.contains cleaned_name then
      (res.1, cleaned_name :: res.2)
    else
      match cacheLookup previous_user_data_list original_name with
      | some item => ({ item with processed_by := "Cache" } :: res.1, res.2)
      | none =>
        match graphLookup cleaned_name with
        | some graph_item =>
          (⟨original_name, some graph_item.description, some graph_item.description,
            graph_item.suggested_next_courses, none, "Graph"⟩ :: res.1, res.2)
        | none => (res.1, cleaned_name :: res.2)

/-- Outcome of query_llm_for_detailed_suggestions
(certificate_processor.py lines 326-374): that function performs the
network call and always returns either a text dict or an error dict,
catching its own exceptions; it is the I/O boundary of the Reconciler and
is therefore passed in as a value. -/
inductive CohereResponse where
  | text (s : String)
  | error (msg : String)
deriving DecidableEq, Repr

/-- The normalised lookup key of lines 630 and 643:
re.sub(backslash-s+, space, name).strip().lower(). -/
def normKey (s : String) : String := pyLower (pyStrip (collapseWs s))

/-- Lookup in the parsed_cohere_batch_map comprehension of lines 629-632:
keyed by the normalised echoed course name, later entries overwriting. -/
def parsedLookup : List ParsedItem → String → Option ParsedItem
  | [], _ => none
  | it :: rest, k =>
    match parsedLookup rest k with
    | some r => some r
    | none => if normKey it.original_input_course_from_llm = k then some it else none

/-- Handling of the batch response (certificate_processor.py lines
624-638): produces the parsed items and the request-level
llm_error_summary. -/
def cohereBatchStep (resp : CohereResponse) (batch : List String) :
    List ParsedItem × Option String :=
  match resp with
  | .text s =>
    if s ≠ "" then
      let parsed_items := parse_llm_detailed_suggestions_response s
      (parsed_items,
       if parsed_items = [] && batch ≠ [] then
         some "Cohere (batch) response received but no valid items could be parsed."
       else none)
    else ([], some "Unexpected response structure from Cohere LLM (batch) query.")
  | .error e => ([], some ("Cohere (batch) error: " ++ e))

/-- A single-quote character, built by code point to keep the source ASCII. -/
def sglQuote : String := mkStr [Char.ofNat 39]

/-- The per-batched-name record construction of lines 641-665: a record
tagged Cohere (batch) when the parser returned a block for the name, and
the Cohere (batch failed) record otherwise. -/
def mkBatchRecord (m : String → Option String) (items : List ParsedItem)
    (llm_error_summary : Option String) (cleaned_name : String) : SuggestionRecord :=
  let original_name := originalOf m cleaned_name
  match parsedLookup items (normKey cleaned_name) with
  | some cohere_item =>
    ⟨original_name, (graphLookup cleaned_name).map (fun g => g.description),
     cohere_item.ai_description, cohere_item.llm_suggestions, none, "Cohere (batch)"⟩
  | none =>
    ⟨original_name, (graphLookup cleaned_name).map (fun g => g.description), none, [],
     some ("Cohere (batch): No data for " ++ sglQuote ++ cleaned_name ++ sglQuote ++ "." ++
           (match llm_error_summary with
            | some s => " Batch error: " ++ s
            | none => "")),
     "Cohere (batch failed)"⟩

/-- The final output_data.sort of line 667: Python list.sort is a stable
sort on the case-lowered identified_course_name key; insertionSort with a
reflexive-total relation inserts each element before the equal-key
elements that followed it, which is exactly stable. -/
def sortRecords (l : List SuggestionRecord) : List SuggestionRecord :=
  l.insertionSort
    (fun a b => pyLower a.identified_course_name ≤ pyLower b.identified_course_name)

/-- Return shape of generate_suggestions_from_known_courses. -/
structure SuggestionsResult where
  user_processed_data : List SuggestionRecord
  llm_error_summary : Option String
deriving DecidableEq, Repr

/-- generate_suggestions_from_known_courses (certificate_processor.py
lines 573-672), with the Cohere response passed in as a value. -/
def generate_suggestions_from_known_courses
    (all_known_course_names_cleaned : List String)
    (m : String → Option String)
    (previous_user_data_list : List SuggestionRecord)
    (force_refresh_for_courses : List String)
    (resp : CohereResponse) : SuggestionsResult :=
  let res := reconcilePass m previous_user_data_list force_refresh_for_courses
               all_known_course_names_cleaned
  if res.2 ≠ [] then
    let step := cohereBatchStep resp res.2
    ⟨sortRecords (res.1 ++ res.2.map (mkBatchRecord m step.1 step.2)), step.2⟩
  else ⟨sortRecords res.1, none⟩

/-- clean_unicode (certificate_processor.py lines 149-150): utf-8 encode
with replacement and decode, the identity on well-formed text, which a
Lean String always is. -/
def clean_unicode (s : String) : String := s

/-- Outcome of the YOLO region section of infer_course_text_from_image_object
(lines 187-222): the detector plus regional-OCR loop either returns early
with the filtered candidates of the first productive region, finds
nothing, or raises (caught, status FAILURE_YOLO_ERROR).  The section is
built on detector and OCR calls, so its outcome is passed in as a value. -/
inductive YoloPhase where
  | success (courses : List String)
  | noResult
  | yoloError
deriving DecidableEq, Repr

/-- Outcome of pytesseract.image_to_string on the full image (line 227):
text, a TesseractError, or some other exception. -/
inductive FullImageOCR where
  | ok (text : String)
  | tessErr (msg : String)
  | otherErr (msg : String)
deriving DecidableEq, Repr

/-- infer_course_text_from_image_object (certificate_processor.py lines
183-262) with the OCR/detector/LLM boundaries passed in as values:
tess models TESSERACT_PATH being set, modelLoaded the YOLO model global,
llm the query_llm_for_course_from_text call (which catches its own
exceptions and returns an optional name).  Returns none exactly where the
source would raise: the TesseractError branch indexes splitlines()[0],
an IndexError when the error message is empty. -/
def infer_course_text_from_image_object (tess modelLoaded : Bool) (yolo : YoloPhase)
    (ocr : FullImageOCR) (llm : String → Option String) :
    Option (List String × String) :=
  match (if modelLoaded && tess then yolo else YoloPhase.noResult) with
  | .success extracted_courses => some (extracted_courses.dedup, "SUCCESS_YOLO_OCR")
  | _ =>
    if tess then
      match ocr with
      | .ok raw =>
        let full_image_text_cleaned := clean_unicode (pyStrip raw)
        if full_image_text_cleaned = "" || full_image_text_cleaned.length < 5 then
          some ([], "FAILURE_FULL_IMAGE_OCR_NO_TEXT")
        else
          match llm full_image_text_cleaned with
          | some llm_extracted_course_name =>
            match filter_and_verify_course_text llm_extracted_course_name with
            | [] => some ([], "FAILURE_LLM_OUTPUT_FILTERED_EMPTY")
            | courses_from_llm =>
              some (courses_from_llm.dedup, "SUCCESS_LLM_EXTRACTION_FROM_FULL_OCR")
          | none => some ([], "FAILURE_LLM_NO_COURSE_IN_TEXT")
      | .tessErr msg =>
        match (pySplitlines msg).head? with
        | some l0 => some ([], "FAILURE_FULL_IMAGE_TESSERACT_ERROR: " ++ l0)
        | none => none
      | .otherErr msg => some ([], "FAILURE_FULL_IMAGE_OCR_UNKNOWN_ERROR: " ++ msg)
    else some ([], "FAILURE_TESSERACT_NOT_FOUND")

/-- One failed-document entry (ExtractionFailure of the spec data model). -/
structure ExtractionFailure where
  file_id : String
  original_filename : String
  reason : String
deriving DecidableEq, Repr

/-- Return shape of process_images_for_ocr. -/
structure OcrResult where
  successfully_extracted_courses : List String
  failed_extraction_images : List ExtractionFailure
  processed_image_file_ids : List String
deriving DecidableEq, Repr

/-- One uploaded document.  load carries the outcome of the content-type
dispatch and image/PDF loading of lines 485-509: an error with the
human-readable reason string, or the list of rendered page images (of an
abstract page type, since pixel data is outside the embedding). -/
structure ImageItem (α : Type) where
  file_id : String
  original_filename : String
  load : Except String (List α)

/-- State of the per-page loop of process_images_for_ocr. -/
structure PageScan where
  courses : List String
  any_extracted : Bool
  best_failure_reason : String
deriving DecidableEq, Repr

/-- The per-page loop of process_images_for_ocr (lines 531-550): tc models
the mode normalisation pil_img.convert of line 534 (which may raise),
inf the call to the per-page extractor; i is the zero-based page index,
best the running best_failure_reason.  The loop stops at the first page
whose extractor returns any candidates. -/
def pageLoop (tc : α → Except String α) (inf : α → List String × String) :
    List α → Nat → String → PageScan
  | [], _, best => ⟨[], false, best⟩
  | pil_img :: rest, i, best =>
    match tc pil_img with
    | .error e =>
      let _ := best
      pageLoop tc inf rest (i + 1)
        ("Image mode conversion failed for page " ++ toString (i + 1) ++ ": " ++ e)
    | .ok img =>
      match inf img with
      | (courses_from_page, page_status_msg) =>
        if courses_from_page ≠ [] then ⟨courses_from_page, true, page_status_msg⟩
        else pageLoop tc inf rest (i + 1) page_status_msg

/-- The failure-entry append of lines 513-516, 522-525 and 554-559:
skipped for the sentinel id and when an entry for the id already exists. -/
def addFailure (failed : List ExtractionFailure) (fid fname reason : String) :
    List ExtractionFailure :=
  if fid ≠ "N/A" && !(failed.any (fun f => f.file_id == fid)) then
    failed ++ [⟨fid, fname, reason⟩]
  else failed

/-- The per-item loop of process_images_for_ocr (lines 473-559), folded
over the items with the accumulated successes, seen ids and failures. -/
def processItems (tc : α → Except String α) (inf : α → List String × String) :
    List (ImageItem α) → List String × List String × List ExtractionFailure →
    List String × List String × List ExtractionFailure
  | [], st => st
  | item :: rest, (succ, ids, failed) =>
    let fid := item.file_id
    let ids := if fid ≠ "N/A" && !(ids.contains fid) then ids ++ [fid] else ids
    match item.load with
    | .error reason =>
      processItems tc inf rest (succ, ids, addFailure failed fid item.original_filename reason)
    | .ok [] =>
      processItems tc inf rest
        (succ, ids,
         addFailure failed fid item.original_filename
           "No image content available after loading (e.g., empty PDF or unreadable image).")
    | .ok (p :: ps) =>
      let scan := pageLoop tc inf (p :: ps) 0 "FAILURE_NO_COURSE_IDENTIFIED"
      if scan.any_extracted then
        processItems tc inf rest (succ ++ scan.courses, ids, failed)
      else
        processItems tc inf rest
          (succ, ids, addFailure failed fid item.original_filename scan.best_failure_reason)

/-- Python sorted over strings (code-point lexicographic ascending). -/
def sortStrings (l : List String) : List String :=
  l.insertionSort (fun a b => a ≤ b)

/-- process_images_for_ocr (certificate_processor.py lines 468-570).
sorted(list(set(...))) is the ascending list of distinct strings, hence
dedup then sort; processed ids are appended pre-deduplicated. -/
def process_images_for_ocr (tc : α → Except String α)
    (inf : α → List String × String) (image_data_list : List (ImageItem α)) : OcrResult :=
  let res := processItems tc inf image_data_list ([], [], [])
  ⟨sortStrings res.1.dedup, res.2.2, res.2.1.dedup⟩

/-- The manual-course merge of lines 699-706: each manual name is stripped,
run through the filter, and its candidates appended when unseen. -/
def mergeManual (current : List String) (additional : List String) : List String :=
  additional.foldl
    (fun cur manual_course =>
      (filter_and_verify_course_text (pyStrip manual_course)).foldl
        (fun cur2 vmc => if cur2.contains vmc then cur2 else cur2 ++ [vmc]) cur)
    current

/-- The ocr_only branch of extract_and_recommend_courses_from_image_data
(lines 684-709). -/
def ocrOnlyBranch (tc : α → Except String α) (inf : α → List String × String)
    (image_data_list : Option (List (ImageItem α)))
    (additional_manual_courses : Option (List String)) : OcrResult :=
  let current_additional_manual_courses := additional_manual_courses.getD []
  let current_image_data_list := image_data_list.getD []
  if current_image_data_list.isEmpty && current_additional_manual_courses.isEmpty then
    ⟨[], [], []⟩
  else
    let ocr_results := process_images_for_ocr tc inf current_image_data_list
    if !current_additional_manual_courses.isEmpty then
      ⟨sortStrings (mergeManual ocr_results.successfully_extracted_courses
                      current_additional_manual_courses).dedup,
       ocr_results.failed_extraction_images, ocr_results.processed_image_file_ids⟩
    else ocr_results

/-- The raw-to-cleaned name function of line 724:
raw_name.replace(" [UNVERIFIED]", "").replace(cent-sign, "").strip(). -/
def cleanRaw (raw_name : String) : String :=
  pyStrip (replaceAll (replaceAll raw_name " [UNVERIFIED]" "") "¢" "")

/-- The cleaned-name / cleaned-to-original-map construction of lines
723-730, folded over the unique raw names with the accumulated list and
association map (first raw name wins per cleaned name). -/
def buildCleanAux (acc : List String × List (String × String)) :
    List String → List String × List (String × String)
  | [] => acc
  | raw_name :: rest =>
    let cleaned_name := cleanRaw raw_name
    if cleaned_name ≠ "" then
      if (acc.2.lookup cleaned_name).isNone then
        buildCleanAux (acc.1 ++ [cleaned_name], acc.2 ++ [(cleaned_name, raw_name)]) rest
      else buildCleanAux acc rest
    else buildCleanAux acc rest

/-- The suggestions_only branch of extract_and_recommend_courses_from_image_data
(lines 711-750). -/
def suggestionsOnlyBranch (known_course_names : Option (List String))
    (previous_user_data_list : Option (List SuggestionRecord))
    (additional_manual_courses : Option (List String))
    (force_refresh_for_courses : Option (List String))
    (resp : CohereResponse) : SuggestionsResult :=
  let consolidated_raw_names := known_course_names.getD [] ++ additional_manual_courses.getD []
  let unique_raw_names := sortStrings ((consolidated_raw_names.filter (fun s => s ≠ "")).dedup)
  let built := buildCleanAux ([], []) unique_raw_names
  if built.1 = [] then
    ⟨[], some "No course names provided for suggestion generation (after cleaning)."⟩
  else
    generate_suggestions_from_known_courses built.1
      (fun c => built.2.lookup c)
      (previous_user_data_list.getD [])
      (force_refresh_for_courses.getD [])
      resp

/-- Return shape of the mode-dispatching entry point. -/
inductive EntryResult where
  | ocr (r : OcrResult)
  | suggestions (r : SuggestionsResult)
  | invalidMode (msg : String)
deriving DecidableEq, Repr

/-- extract_and_recommend_courses_from_image_data (certificate_processor.py
lines 676-754), with the extraction and LLM boundaries as parameters. -/
def extract_and_recommend_courses_from_image_data (tc : α → Except String α)
    (inf : α → List String × String)
    (image_data_list : Option (List (ImageItem α)))
    (mode : String)
    (known_course_names : Option (List String))
    (previous_user_data_list : Option (List SuggestionRecord))
    (additional_manual_courses : Option (List String))
    (force_refresh_for_courses : Option (List String))
    (resp : CohereResponse) : EntryResult :=
  if mode = "ocr_only" then
    .ocr (ocrOnlyBranch tc inf image_data_list additional_manual_courses)
  else if mode = "suggestions_only" then
    .suggestions (suggestionsOnlyBranch known_course_names previous_user_data_list
      additional_manual_courses force_refresh_for_courses resp)
  else .invalidMode ("Invalid processing mode: " ++ mode)

/-- The block loop appends the records of two block lists independently. -/
theorem processBlocks_append (l1 l2 : List String) :
    processBlocks (l1 ++ l2) = processBlocks l1 ++ processBlocks l2 := by
  induction l1 with
  | nil => rfl
  | cons b t ih =>
    simp only [List.cons_append, processBlocks]
    cases parseBlock b <;> simp [ih]

/-- A block whose stripped text has no parsable echo-name line yields no
record. -/
theorem parseBlock_eq_none (b : String)
    (h : keyLazySearch "original input course:".data (stripL b.data) = none) :
    parseBlock b = none := by
  simp only [parseBlock, h]
  split <;> rfl

/-- C6: malformed-block tolerance of the LLM response parser.  In the
block loop of parse_llm_detailed_suggestions_response, a block whose
stripped text has no parsable Original Input Course echo line contributes
no record, and the records of the blocks before and after it are exactly
those they produce on their own. -/
theorem parser_malformed_block_tolerance (pre post : List String) (b : String)
    (h : keyLazySearch "original input course:".data (stripL b.data) = none) :
    processBlocks (pre ++ b :: post) = processBlocks pre ++ processBlocks post := by
  rw [processBlocks_append]
  congr 1
  simp only [processBlocks, parseBlock_eq_none b h]

/-- Witness for C6: a three-block response whose middle block lacks the
echo line still yields the records of blocks one and three. -/
theorem parser_malformed_block_tolerance_witness :
    keyLazySearch "original input course:".data
      (stripL ("AI Description: orphan".data)) = none ∧
    processBlocks ["Original Input Course: A\nAI Description: da",
                   "AI Description: orphan",
                   "Original Input Course: B\nAI Description: db"] =
      processBlocks ["Original Input Course: A\nAI Description: da"] ++
        processBlocks ["Original Input Course: B\nAI Description: db"] ∧
    processBlocks ["Original Input Course: A\nAI Description: da",
                   "AI Description: orphan",
                   "Original Input Course: B\nAI Description: db"] =
      [⟨"A", some "da", []⟩, ⟨"B", some "db", []⟩] :=
  ⟨by decide,
   parser_malformed_block_tolerance ["Original Input Course: A\nAI Description: da"]
     ["Original Input Course: B\nAI Description: db"] "AI Description: orphan" (by decide),
   by decide⟩

/-- A cache hit returns a record whose identified_course_name is the
queried key: the cache map is keyed by that very field. -/
theorem cacheLookup_name (prev : List SuggestionRecord) (k : String)
    (item : SuggestionRecord) (h : cacheLookup prev k = some item) :
    item.identified_course_name = k := by
  induction prev with
  | nil => simp [cacheLookup] at h
  | cons it rest ih =>
    simp only [cacheLookup] at h
    cases hr : cacheLookup rest k with
    | some r =>
      rw [hr] at h
      simp only [Option.some.injEq] at h
      exact ih (hr.trans (by rw [h]))
    | none =>
      rw [hr] at h
      by_cases he : it.identified_course_name = k
      · rw [if_pos he] at h
        obtain rfl : it = item := Option.some.inj h
        exact he
      · rw [if_neg he] at h
        simp at h

/-- Every batch record carries the original name of its cleaned input. -/
theorem mkBatchRecord_name (m : String → Option String) (items : List ParsedItem)
    (s : Option String) (c : String) :
    (mkBatchRecord m items s c).identified_course_name = originalOf m c := by
  unfold mkBatchRecord
  split <;> rfl

/-- Every batch record is tagged with one of the two Cohere provenances. -/
theorem mkBatchRecord_processed_by (m : String → Option String) (items : List ParsedItem)
    (s : Option String) (c : String) :
    (mkBatchRecord m items s c).processed_by = "Cohere (batch)" ∨
      (mkBatchRecord m items s c).processed_by = "Cohere (batch failed)" := by
  unfold mkBatchRecord
  split
  · exact Or.inl rfl
  · exact Or.inr rfl

/-- The final sort permutes the record list. -/
theorem sortRecords_perm (l : List SuggestionRecord) : List.Perm (sortRecords l) l :=
  List.perm_insertionSort _ l

/-- Membership is unchanged by the final sort. -/
theorem mem_sortRecords (l : List SuggestionRecord) (r : SuggestionRecord) :
    r ∈ sortRecords l ↔ r ∈ l :=
  (sortRecords_perm l).mem_iff

/-- Python sorted permutes the string list. -/
theorem sortStrings_perm (l : List String) : List.Perm (sortStrings l) l :=
  List.perm_insertionSort _ l

/-- Membership is unchanged by Python sorted. -/
theorem mem_sortStrings (l : List String) (s : String) :
    s ∈ sortStrings l ↔ s ∈ l :=
  (sortStrings_perm l).mem_iff

/-- The resolution loop conserves names: the identified names of its
cache/graph records together with the originals of its batch names are a
permutation of the originals of all input names. -/
theorem reconcilePass_perm (m : String → Option String) (prev : List SuggestionRecord)
    (force : List String) (names : List String) :
    List.Perm
      ((reconcilePass m prev force names).1.map (fun r => r.identified_course_name) ++
        (reconcilePass m prev force names).2.map (originalOf m))
      (names.map (originalOf m)) := by
  induction names with
  | nil => simp [reconcilePass]
  | cons c rest ih =>
    cases hf : force.contains c with
    | true =>
      simp only [reconcilePass, hf, if_pos, List.map_cons, List.map]
      exact List.perm_middle.trans ((ih).cons _)
    | false =>
      cases hc : cacheLookup prev (originalOf m c) with
      | some item =>
        simp only [reconcilePass, hf, Bool.false_eq_true, if_neg, not_false_iff, hc,
          List.map_cons, List.cons_append, List.map]
        rw [cacheLookup_name prev _ item hc]
        exact (ih).cons _
      | none =>
        cases hg : graphLookup c with
        | some g =>
          simp only [reconcilePass, hf, Bool.false_eq_true, if_neg, not_false_iff, hc, hg,
            List.map_cons, List.cons_append, List.map]
          exact (ih).cons _
        | none =>
          simp only [reconcilePass, hf, Bool.false_eq_true, if_neg, not_false_iff, hc, hg,
            List.map_cons, List.map]
          exact List.perm_middle.trans ((ih).cons _)

/-- Every cache/graph record emitted by the resolution loop belongs to a
non-forced input name and carries that name's original form. -/
theorem reconcilePass_out_spec (m : String → Option String) (prev : List SuggestionRecord)
    (force : List String) (names : List String) :
    ∀ r ∈ (reconcilePass m prev force names).1,
      ∃ c ∈ names, force.contains c = false ∧
        r.identified_course_name = originalOf m c := by
  induction names with
  | nil => simp [reconcilePass]
  | cons c rest ih =>
    intro r hr
    cases hf : force.contains c with
    | true =>
      simp only [reconcilePass, hf, if_pos] at hr
      obtain ⟨c', hc', hfc', hn⟩ := ih r hr
      exact ⟨c', List.mem_cons_of_mem _ hc', hfc', hn⟩
    | false =>
      cases hc : cacheLookup prev (originalOf m c) with
      | some item =>
        simp only [reconcilePass, hf, Bool.false_eq_true, if_neg, not_false_iff, hc,
          List.mem_cons] at hr
        rcases hr with hr | hr
        · refine ⟨c, List.mem_cons_self _ _, hf, ?_⟩
          rw [hr]
          exact cacheLookup_name prev _ item hc
        · obtain ⟨c', hc', hfc', hn⟩ := ih r hr
          exact ⟨c', List.mem_cons_of_mem _ hc', hfc', hn⟩
      | none =>
        cases hg : graphLookup c with
        | some g =>
          simp only [reconcilePass, hf, Bool.false_eq_true, if_neg, not_false_iff, hc, hg,
            List.mem_cons] at hr
          rcases hr with hr | hr
          · exact ⟨c, List.mem_cons_self _ _, hf, by rw [hr]⟩
          · obtain ⟨c', hc', hfc', hn⟩ := ih r hr
            exact ⟨c', List.mem_cons_of_mem _ hc', hfc', hn⟩
        | none =>
          simp only [reconcilePass, hf, Bool.false_eq_true, if_neg, not_false_iff, hc, hg] at hr
          obtain ⟨c', hc', hfc', hn⟩ := ih r hr
          exact ⟨c', List.mem_cons_of_mem _ hc', hfc', hn⟩

/-- A non-forced input name with a cache hit contributes the cached record,
retagged Cache, to the loop's output list. -/
theorem reconcilePass_cache_mem (m : String → Option String) (prev : List SuggestionRecord)
    (force : List String) (c : String) (item : SuggestionRecord) (names : List String)
    (hc : c ∈ names) (hf : force.contains c = false)
    (hit : cacheLookup prev (originalOf m c) = some item) :
    { item with processed_by := "Cache" } ∈ (reconcilePass m prev force names).1 := by
  induction names with
  | nil => cases hc
  | cons a rest ih =>
    rcases List.mem_cons.mp hc with rfl | ha
    · simp only [reconcilePass, hf, Bool.false_eq_true, if_neg, not_false_iff, hit]
      exact List.mem_cons_self _ _
    · have hmem := ih ha
      cases hfa : force.contains a with
      | true =>
        simpa only [reconcilePass, hfa, if_pos] using hmem
      | false =>
        cases hca : cacheLookup prev (originalOf m a) with
        | some it2 =>
          simp only [reconcilePass, hfa, Bool.false_eq_true, if_neg, not_false_iff, hca]
          exact List.mem_cons_of_mem _ hmem
        | none =>
          cases hga : graphLookup a with
          | some g =>
            simp only [reconcilePass, hfa, Bool.false_eq_true, if_neg, not_false_iff, hca, hga]
            exact List.mem_cons_of_mem _ hmem
          | none =>
            simpa only [reconcilePass, hfa, Bool.false_eq_true, if_neg, not_false_iff,
              hca, hga] using hmem

/-- A non-forced name with a cache hit never enters the LLM batch. -/
theorem reconcilePass_cache_not_batch (m : String → Option String)
    (prev : List SuggestionRecord) (force : List String) (c : String)
    (hf : force.contains c = false) (hit : (cacheLookup prev (originalOf m c)).isSome) :
    ∀ names, c ∉ (reconcilePass m prev force names).2 := by
  intro names
  induction names with
  | nil => simp [reconcilePass]
  | cons a rest ih =>
    cases hfa : force.contains a with
    | true =>
      simp only [reconcilePass, hfa, if_pos, List.mem_cons]
      rintro (rfl | hmem)
      · rw [hfa] at hf; cases hf
      · exact ih hmem
    | false =>
      cases hca : cacheLookup prev (originalOf m a) with
      | some it2 =>
        simpa only [reconcilePass, hfa, Bool.false_eq_true, if_neg, not_false_iff, hca]
          using ih
      | none =>
        cases hga : graphLookup a with
        | some g =>
          simpa only [reconcilePass, hfa, Bool.false_eq_true, if_neg, not_false_iff, hca, hga]
            using ih
        | none =>
          simp only [reconcilePass, hfa, Bool.false_eq_true, if_neg, not_false_iff, hca, hga,
            List.mem_cons]
          rintro (rfl | hmem)
          · rw [hca] at hit; cases hit
          · exact ih hmem

/-- A forced input name always enters the LLM batch. -/
theorem reconcilePass_forced_batch (m : String → Option String)
    (prev : List SuggestionRecord) (force : List String) (c : String)
    (hf : force.contains c = true) :
    ∀ names, c ∈ names → c ∈ (reconcilePass m prev force names).2 := by
  intro names hc
  induction names with
  | nil => cases hc
  | cons a rest ih =>
    rcases List.mem_cons.mp hc with rfl | ha
    · simp only [reconcilePass, hf, if_pos]
      exact List.mem_cons_self _ _
    · have hmem := ih ha
      cases hfa : force.contains a with
      | true =>
        simp only [reconcilePass, hfa, if_pos, List.mem_cons]
        exact Or.inr hmem
      | false =>
        cases hca : cacheLookup prev (originalOf m a) with
        | some it2 =>
          simpa only [reconcilePass, hfa, Bool.false_eq_true, if_neg, not_false_iff, hca]
            using hmem
        | none =>
          cases hga : graphLookup a with
          | some g =>
            simpa only [reconcilePass, hfa, Bool.false_eq_true, if_neg, not_false_iff,
              hca, hga] using hmem
          | none =>
            simp only [reconcilePass, hfa, Bool.false_eq_true, if_neg, not_false_iff, hca, hga,
              List.mem_cons]
            exact Or.inr hmem

/-- Shape of generate_suggestions_from_known_courses when the batch is
non-empty. -/
theorem generate_eq_batch (names : List String) (m : String → Option String)
    (prev : List SuggestionRecord) (force : List String) (resp : CohereResponse)
    (h : (reconcilePass m prev force names).2 ≠ []) :
    generate_suggestions_from_known_courses names m prev force resp =
      ⟨sortRecords ((reconcilePass m prev force names).1 ++
          (reconcilePass m prev force names).2.map
            (mkBatchRecord m
              (cohereBatchStep resp (reconcilePass m prev force names).2).1
              (cohereBatchStep resp (reconcilePass m prev force names).2).2)),
        (cohereBatchStep resp (reconcilePass m prev force names).2).2⟩ := by
  unfold generate_suggestions_from_known_courses
  rw [if_pos h]

/-- Shape of generate_suggestions_from_known_courses when the batch is
empty. -/
theorem generate_eq_nobatch (names : List String) (m : String → Option String)
    (prev : List SuggestionRecord) (force : List String) (resp : CohereResponse)
    (h : (reconcilePass m prev force names).2 = []) :
    generate_suggestions_from_known_courses names m prev force resp =
      ⟨sortRecords (reconcilePass m prev force names).1, none⟩ := by
  unfold generate_suggestions_from_known_courses
  rw [if_neg (by simp [h])]

/-- The identified names of the returned records are a permutation of the
originals of the input names, whatever the LLM outcome. -/
theorem generate_map_perm (names : List String) (m : String → Option String)
    (prev : List SuggestionRecord) (force : List String) (resp : CohereResponse) :
    List.Perm
      ((generate_suggestions_from_known_courses names m prev force resp).user_processed_data.map
        (fun r => r.identified_course_name))
      (names.map (originalOf m)) := by
  by_cases h : (reconcilePass m prev force names).2 = []
  · rw [generate_eq_nobatch names m prev force resp h]
    have h1 := (sortRecords_perm (reconcilePass m prev force names).1).map
      (fun r => r.identified_course_name)
    have h2 := reconcilePass_perm m prev force names
    rw [h] at h2
    simp only [List.map_nil, List.append_nil] at h2
    exact h1.trans h2
  · rw [generate_eq_batch names m prev force resp h]
    have h1 := (sortRecords_perm
      ((reconcilePass m prev force names).1 ++
        (reconcilePass m prev force names).2.map
          (mkBatchRecord m
            (cohereBatchStep resp (reconcilePass m prev force names).2).1
            (cohereBatchStep resp (reconcilePass m prev force names).2).2))).map
      (fun r : SuggestionRecord => r.identified_course_name)
    refine h1.trans ?_
    rw [List.map_append, List.map_map]
    have h3 : ((reconcilePass m prev force names).2.map
        ((fun r : SuggestionRecord => r.identified_course_name) ∘
          mkBatchRecord m
            (cohereBatchStep resp (reconcilePass m prev force names).2).1
            (cohereBatchStep resp (reconcilePass m prev force names).2).2)) =
        (reconcilePass m prev force names).2.map (originalOf m) := by
      refine List.map_congr_left ?_
      intro a _
      exact mkBatchRecord_name m _ _ a
    rw [h3]
    exact reconcilePass_perm m prev force names

/-- C1: one-output-per-input invariant of the Cache Reconciler.  For every
list of distinct cleaned course names, any cleaned-to-original map, any
previous records, any force-refresh set and any LLM outcome, the returned
user_processed_data holds exactly one record per input name: its length is
the input length and its identified names are a permutation of the inputs'
original names. -/
theorem reconciler_one_output_per_input (names : List String)
    (m : String → Option String) (prev : List SuggestionRecord) (force : List String)
    (resp : CohereResponse) (hnodup : names.Nodup) :
    (generate_suggestions_from_known_courses names m prev force
        resp).user_processed_data.length = names.length ∧
    List.Perm
      ((generate_suggestions_from_known_courses names m prev force
          resp).user_processed_data.map (fun r => r.identified_course_name))
      (names.map (originalOf m)) := by
  have hp := generate_map_perm names m prev force resp
  refine ⟨?_, hp⟩
  have hl := hp.length_eq
  simpa using hl

/-- Witness for C1 at a concrete two-name request with an LLM error. -/
theorem reconciler_one_output_per_input_witness :
    (["Python", "Rust Basics"] : List String).Nodup ∧
    ((generate_suggestions_from_known_courses ["Python", "Rust Basics"] (fun _ => none) [] []
        (CohereResponse.error "boom")).user_processed_data.length =
      (["Python", "Rust Basics"] : List String).length ∧
    List.Perm
      ((generate_suggestions_from_known_courses ["Python", "Rust Basics"] (fun _ => none) [] []
          (CohereResponse.error "boom")).user_processed_data.map
        (fun r => r.identified_course_name))
      ((["Python", "Rust Basics"] : List String).map (originalOf (fun _ => none)))) :=
  ⟨by decide,
   reconciler_one_output_per_input ["Python", "Rust Basics"] (fun _ => none) [] []
     (CohereResponse.error "boom") (by decide)⟩

/-- C2: cache precedence.  A cleaned name that is not force-refreshed and
whose original name hits the cache yields the cached record retagged
processed_by Cache in the output (even when the cleaned name is also a
graph key, since the cache branch is tested first), and the name never
enters the LLM batch.  The cache is consulted with the exact original
name string. -/
theorem reconciler_cache_precedence (names : List String) (m : String → Option String)
    (prev : List SuggestionRecord) (force : List String) (resp : CohereResponse)
    (c : String) (item : SuggestionRecord)
    (hc : c ∈ names) (hf : force.contains c = false)
    (hit : cacheLookup prev (originalOf m c) = some item) :
    { item with processed_by := "Cache" } ∈
      (generate_suggestions_from_known_courses names m prev force resp).user_processed_data ∧
    c ∉ (reconcilePass m prev force names).2 := by
  have hout := reconcilePass_cache_mem m prev force c item names hc hf hit
  have hnb := reconcilePass_cache_not_batch m prev force c hf (by rw [hit]; rfl) names
  refine ⟨?_, hnb⟩
  by_cases h : (reconcilePass m prev force names).2 = []
  · rw [generate_eq_nobatch names m prev force resp h]
    exact (mem_sortRecords _ _).mpr hout
  · rw [generate_eq_batch names m prev force resp h]
    exact (mem_sortRecords _ _).mpr (List.mem_append_left _ hout)

/-- Witness for C2: the name Python both hits the cache and is a graph
key; the cached record wins. -/
theorem reconciler_cache_precedence_witness :
    ("Python" ∈ (["Python"] : List String) ∧
      (["Typescript"] : List String).contains "Python" = false ∧
      cacheLookup [⟨"Python", none, some "cached desc", [], none, "Cache"⟩]
        (originalOf (fun _ => none) "Python") =
        some ⟨"Python", none, some "cached desc", [], none, "Cache"⟩ ∧
      (graphLookup "Python").isSome = true) ∧
    ({ (⟨"Python", none, some "cached desc", [], none, "Cache"⟩ : SuggestionRecord) with
        processed_by := "Cache" } ∈
      (generate_suggestions_from_known_courses ["Python"] (fun _ => none)
        [⟨"Python", none, some "cached desc", [], none, "Cache"⟩] ["Typescript"]
        (CohereResponse.text "")).user_processed_data ∧
    "Python" ∉ (reconcilePass (fun _ => none)
      [⟨"Python", none, some "cached desc", [], none, "Cache"⟩] ["Typescript"] ["Python"]).2) :=
  ⟨⟨by decide, by decide, by decide, by decide⟩,
   reconciler_cache_precedence ["Python"] (fun _ => none)
     [⟨"Python", none, some "cached desc", [], none, "Cache"⟩] ["Typescript"]
     (CohereResponse.text "") "Python" ⟨"Python", none, some "cached desc", [], none, "Cache"⟩
     (by decide) (by decide) (by decide)⟩

/-- C3: forced refresh bypass.  A cleaned name in the force-refresh set
always enters the LLM batch, and (when no other input name maps to the
same original) no output record bearing its original name is tagged
processed_by Cache, even if a cache entry for that original exists. -/
theorem reconciler_forced_refresh_bypass (names : List String) (m : String → Option String)
    (prev : List SuggestionRecord) (force : List String) (resp : CohereResponse) (c : String)
    (hc : c ∈ names) (hf : force.contains c = true)
    (hinj : ∀ c2 ∈ names, originalOf m c2 = originalOf m c → c2 = c) :
    c ∈ (reconcilePass m prev force names).2 ∧
    ∀ r ∈ (generate_suggestions_from_known_courses names m prev force
        resp).user_processed_data,
      r.identified_course_name = originalOf m c → r.processed_by ≠ "Cache" := by
  have hbatch := reconcilePass_forced_batch m prev force c hf names hc
  refine ⟨hbatch, ?_⟩
  intro r hr hname
  have hne : (reconcilePass m prev force names).2 ≠ [] := List.ne_nil_of_mem hbatch
  rw [generate_eq_batch names m prev force resp hne] at hr
  have hr2 := (mem_sortRecords _ _).mp hr
  rcases List.mem_append.mp hr2 with hro | hrb
  · obtain ⟨c2, hc2, hfc2, hn2⟩ := reconcilePass_out_spec m prev force names r hro
    have hcc : c2 = c := hinj c2 hc2 (hn2.symm.trans hname)
    rw [hcc] at hfc2
    exact absurd (hf.symm.trans hfc2) (by decide)
  · obtain ⟨c2, hc2, hrec⟩ := List.mem_map.mp hrb
    rcases mkBatchRecord_processed_by m
        (cohereBatchStep resp (reconcilePass m prev force names).2).1
        (cohereBatchStep resp (reconcilePass m prev force names).2).2 c2 with hpb | hpb <;>
      rw [← hrec, hpb] <;> decide

/-- Witness for C3: Python is force-refreshed while a cache entry for it
exists; it still reaches the batch and no Cache-tagged record for it is
emitted. -/
theorem reconciler_forced_refresh_bypass_witness :
    ("Python" ∈ (["Python"] : List String) ∧
      (["Python"] : List String).contains "Python" = true) ∧
    ("Python" ∈ (reconcilePass (fun _ => none)
        [⟨"Python", none, some "cached desc", [], none, "Cache"⟩] ["Python"] ["Python"]).2 ∧
     ∀ r ∈ (generate_suggestions_from_known_courses ["Python"] (fun _ => none)
          [⟨"Python", none, some "cached desc", [], none, "Cache"⟩] ["Python"]
          (CohereResponse.error "x")).user_processed_data,
        r.identified_course_name = originalOf (fun _ => none) "Python" →
          r.processed_by ≠ "Cache") :=
  ⟨⟨by decide, by decide⟩,
   reconciler_forced_refresh_bypass ["Python"] (fun _ => none)
     [⟨"Python", none, some "cached desc", [], none, "Cache"⟩] ["Python"]
     (CohereResponse.error "x") "Python" (by decide) (by decide) (by decide)⟩

/-- C5: batch LLM failure handling.  When the batch LLM call returns an
error, every name that reached the batch is emitted as a record with
empty suggestions, a non-null llm_error and provenance
Cohere (batch failed), and the request-level llm_error_summary is set;
the function returns normally. -/
theorem reconciler_batch_failure_handling (names : List String)
    (m : String → Option String) (prev : List SuggestionRecord) (force : List String)
    (c e : String) (hb : c ∈ (reconcilePass m prev force names).2) :
    (∃ r ∈ (generate_suggestions_from_known_courses names m prev force
        (CohereResponse.error e)).user_processed_data,
      r.identified_course_name = originalOf m c ∧ r.llm_suggestions = [] ∧
        r.llm_error.isSome = true ∧ r.processed_by = "Cohere (batch failed)") ∧
    (generate_suggestions_from_known_courses names m prev force
      (CohereResponse.error e)).llm_error_summary.isSome = true := by
  have hne : (reconcilePass m prev force names).2 ≠ [] := List.ne_nil_of_mem hb
  rw [generate_eq_batch names m prev force (CohereResponse.error e) hne]
  constructor
  · refine ⟨mkBatchRecord m
        (cohereBatchStep (CohereResponse.error e) (reconcilePass m prev force names).2).1
        (cohereBatchStep (CohereResponse.error e) (reconcilePass m prev force names).2).2 c,
      ?_, ?_, ?_, ?_, ?_⟩
    · exact (mem_sortRecords _ _).mpr
        (List.mem_append_right _ (List.mem_map_of_mem _ hb))
    · exact mkBatchRecord_name m _ _ c
    · rfl
    · rfl
    · rfl
  · rfl

/-- Witness for C5: a name with no cache or graph hit while the batch
call errors out. -/
theorem reconciler_batch_failure_handling_witness :
    "Zz Course" ∈ (reconcilePass (fun _ => none) [] [] ["Zz Course"]).2 ∧
    ((∃ r ∈ (generate_suggestions_from_known_courses ["Zz Course"] (fun _ => none) [] []
        (CohereResponse.error "boom")).user_processed_data,
      r.identified_course_name = originalOf (fun _ => none) "Zz Course" ∧
        r.llm_suggestions = [] ∧ r.llm_error.isSome = true ∧
        r.processed_by = "Cohere (batch failed)") ∧
    (generate_suggestions_from_known_courses ["Zz Course"] (fun _ => none) [] []
      (CohereResponse.error "boom")).llm_error_summary.isSome = true) :=
  ⟨by decide,
   reconciler_batch_failure_handling ["Zz Course"] (fun _ => none) [] [] "Zz Course" "boom"
     (by decide)⟩

/-- Refutation for C7: the filter is not idempotent.  Re-filtering the
unverified candidate it produced for Data Science Bootcamp re-title-cases
the marker and appends a second one, changing the candidate set. -/
theorem filter_not_idempotent_counterexample :
    filter_and_verify_course_text "Data Science Bootcamp" =
      ["Data Science Bootcamp [UNVERIFIED]"] ∧
    filter_and_verify_course_text "Data Science Bootcamp [UNVERIFIED]" =
      ["Data Science Bootcamp [Unverified] [UNVERIFIED]"] :=
  ⟨by decide, by decide⟩

/-- C7 amended: filtering is idempotent at the set level on the verified
(direct-match) candidates: for every name of the known-course list,
re-filtering each candidate the filter produced for it yields the same
candidate set.  It is not idempotent on unverified candidates, whose
marker accumulates (see the counterexample). -/
theorem filter_idempotent_on_known_courses :
    ∀ c ∈ possible_courses,
      ((filter_and_verify_course_text c).flatMap filter_and_verify_course_text).dedup =
        filter_and_verify_course_text c := by decide

/-- Witness for the amended C7 at the known course Tailwind CSS, whose
candidate set also contains CSS. -/
theorem filter_idempotent_on_known_courses_witness :
    "Tailwind CSS" ∈ possible_courses ∧
    ((filter_and_verify_course_text "Tailwind CSS").flatMap
        filter_and_verify_course_text).dedup =
      filter_and_verify_course_text "Tailwind CSS" :=
  ⟨by decide, filter_idempotent_on_known_courses "Tailwind CSS" (by decide)⟩

/-- Refutation for C8: with an empty image list and the manual name
Advanced Data Analysis, the entry point returns the name tagged with the
unverified marker, not the bare name the claim expects. -/
theorem runocr_manual_name_counterexample :
    extract_and_recommend_courses_from_image_data (α := Unit) (fun a => .ok a)
        (fun _ => ([], "FAILURE_NO_COURSE_IDENTIFIED")) (some []) "ocr_only" none none
        (some ["Advanced Data Analysis"]) none (CohereResponse.error "") =
      .ocr ⟨["Advanced Data Analysis [UNVERIFIED]"], [], []⟩ ∧
    (["Advanced Data Analysis [UNVERIFIED]"] : List String) ≠ ["Advanced Data Analysis"] :=
  ⟨by decide, by decide⟩

/-- C8 amended: in ocr_only mode with an empty image list and manual
course names [Advanced Data Analysis], the entry point returns
successfully_extracted_courses = [Advanced Data Analysis [UNVERIFIED]]
(the filter accepts the short manual phrase only as an unverified
candidate and tags it) and no failed extraction images, for any page
extractor and LLM outcome. -/
theorem runocr_manual_name_amended {α : Type} (tc : α → Except String α)
    (inf : α → List String × String) (resp : CohereResponse) :
    extract_and_recommend_courses_from_image_data tc inf (some []) "ocr_only" none none
        (some ["Advanced Data Analysis"]) none resp =
      .ocr ⟨["Advanced Data Analysis [UNVERIFIED]"], [], []⟩ := rfl

/-- Witness for the amended C8 at a concrete trivial extractor. -/
theorem runocr_manual_name_amended_witness :
    extract_and_recommend_courses_from_image_data (α := Unit) (fun a => .ok a)
        (fun _ => ([], "FAILURE_NO_COURSE_IDENTIFIED")) (some []) "ocr_only" none none
        (some ["Advanced Data Analysis"]) none (CohereResponse.text "") =
      .ocr ⟨["Advanced Data Analysis [UNVERIFIED]"], [], []⟩ :=
  runocr_manual_name_amended (fun a => .ok a) (fun _ => ([], "FAILURE_NO_COURSE_IDENTIFIED"))
    (CohereResponse.text "")

/-- Refutation for C9: a full-image OCR engine failure is reported with
status prefix FAILURE_FULL_IMAGE_TESSERACT_ERROR, not the
FAILURE_FULL_IMAGE_OCR_ERROR prefix the claim names. -/
theorem fullimage_ocr_error_status_counterexample :
    infer_course_text_from_image_object true false YoloPhase.noResult
        (FullImageOCR.tessErr "boom happened\ndetails") (fun _ => none) =
      some ([], "FAILURE_FULL_IMAGE_TESSERACT_ERROR: boom happened") ∧
    "FAILURE_FULL_IMAGE_TESSERACT_ERROR: boom happened" ≠
      "FAILURE_FULL_IMAGE_OCR_ERROR: boom happened" :=
  ⟨by decide, by decide⟩

/-- C9 amended: whenever the full-image fallback runs (the region phase
produced no early success), an OCR engine failure is caught inside the
extractor and reported as a status string: a TesseractError with a
non-empty message as FAILURE_FULL_IMAGE_TESSERACT_ERROR: followed by the
first line of the message, and any other error as
FAILURE_FULL_IMAGE_OCR_UNKNOWN_ERROR: followed by the whole message.
(An empty TesseractError message would escape as an IndexError from the
splitlines()[0] lookup, which the embedding returns as none.) -/
theorem fullimage_ocr_error_capture (modelLoaded : Bool) (yolo : YoloPhase)
    (llm : String → Option String) (msg l0 : String) (ls : List String)
    (hy : ∀ cs, yolo ≠ YoloPhase.success cs)
    (hsplit : pySplitlines msg = l0 :: ls) :
    infer_course_text_from_image_object true modelLoaded yolo (FullImageOCR.tessErr msg) llm =
      some ([], "FAILURE_FULL_IMAGE_TESSERACT_ERROR: " ++ l0) ∧
    (∀ msg2,
      infer_course_text_from_image_object true modelLoaded yolo (FullImageOCR.otherErr msg2)
          llm =
        some ([], "FAILURE_FULL_IMAGE_OCR_UNKNOWN_ERROR: " ++ msg2)) := by
  constructor
  · cases modelLoaded with
    | false => simp [infer_course_text_from_image_object, hsplit]
    | true =>
      cases yolo with
      | success cs => exact absurd rfl (hy cs)
      | noResult => simp [infer_course_text_from_image_object, hsplit]
      | yoloError => simp [infer_course_text_from_image_object, hsplit]
  · intro msg2
    cases modelLoaded with
    | false => simp [infer_course_text_from_image_object]
    | true =>
      cases yolo with
      | success cs => exact absurd rfl (hy cs)
      | noResult => simp [infer_course_text_from_image_object]
      | yoloError => simp [infer_course_text_from_image_object]

/-- Witness for the amended C9 at a concrete two-line error message. -/
theorem fullimage_ocr_error_capture_witness :
    (∀ cs, YoloPhase.noResult ≠ YoloPhase.success cs) ∧
    pySplitlines "err line one\nmore" = ["err line one", "more"] ∧
    (infer_course_text_from_image_object true true YoloPhase.noResult
        (FullImageOCR.tessErr "err line one\nmore") (fun _ => none) =
      some ([], "FAILURE_FULL_IMAGE_TESSERACT_ERROR: err line one") ∧
    (∀ msg2,
      infer_course_text_from_image_object true true YoloPhase.noResult
          (FullImageOCR.otherErr msg2) (fun _ => none) =
        some ([], "FAILURE_FULL_IMAGE_OCR_UNKNOWN_ERROR: " ++ msg2))) :=
  ⟨fun _ h => YoloPhase.noConfusion h, by decide,
   fullimage_ocr_error_capture true YoloPhase.noResult (fun _ => none)
     "err line one\nmore" "err line one" ["more"] (fun _ h => YoloPhase.noConfusion h)
     (by decide)⟩

/-- The page loop returns the first productive page's candidates and
status, never touching later pages. -/
theorem pageLoop_first_success {α : Type} (tc : α → Except String α)
    (inf : α → List String × String) (pre post : List α) (p p' : α)
    (cs : List String) (st : String)
    (hpre : ∀ q ∈ pre, ∃ q', tc q = .ok q' ∧ (inf q').1 = [])
    (hp : tc p = .ok p') (hinf : inf p' = (cs, st)) (hcs : cs ≠ []) :
    ∀ i best, pageLoop tc inf (pre ++ p :: post) i best = ⟨cs, true, st⟩ := by
  induction pre with
  | nil =>
    intro i best
    simp only [List.nil_append, pageLoop, hp, hinf]
    rw [if_pos hcs]
  | cons q pre' ih =>
    intro i best
    obtain ⟨q', hq, hq0⟩ := hpre q (List.mem_cons_self q _)
    have hpre' : ∀ r ∈ pre', ∃ r', tc r = .ok r' ∧ (inf r').1 = [] :=
      fun r hr => hpre r (List.mem_cons_of_mem _ hr)
    simp only [List.cons_append, pageLoop, hq]
    rcases hq2 : inf q' with ⟨c0, s0⟩
    rw [hq2] at hq0
    simp only at hq0
    subst hq0
    rw [if_neg (by simp)]
    exact ih hpre' (i + 1) s0

/-- When every page converts cleanly and extracts nothing, the page loop
ends with the last page's status as the best failure reason. -/
theorem pageLoop_all_fail {α : Type} (tc : α → Except String α)
    (inf : α → List String × String) (pre : List α) (plast p' : α) (stl : String)
    (hpre : ∀ q ∈ pre, ∃ q', tc q = .ok q' ∧ (inf q').1 = [])
    (hl : tc plast = .ok p') (hinf : inf p' = ([], stl)) :
    ∀ i best, pageLoop tc inf (pre ++ [plast]) i best = ⟨[], false, stl⟩ := by
  induction pre with
  | nil =>
    intro i best
    simp only [List.nil_append, pageLoop, hl, hinf]
    rw [if_neg (by simp)]
  | cons q pre' ih =>
    intro i best
    obtain ⟨q', hq, hq0⟩ := hpre q (List.mem_cons_self q _)
    have hpre' : ∀ r ∈ pre', ∃ r', tc r = .ok r' ∧ (inf r').1 = [] :=
      fun r hr => hpre r (List.mem_cons_of_mem _ hr)
    simp only [List.cons_append, pageLoop, hq]
    rcases hq2 : inf q' with ⟨c0, s0⟩
    rw [hq2] at hq0
    simp only at hq0
    subst hq0
    rw [if_neg (by simp)]
    exact ih hpre' (i + 1) s0

/-- Shape of a single-document batch whose page scan succeeded. -/
theorem process_single_success {α : Type} (tc : α → Except String α)
    (inf : α → List String × String) (fid fname : String) (cs : List String) (st : String)
    (pages : List α) (hne : pages ≠ [])
    (hscan : pageLoop tc inf pages 0 "FAILURE_NO_COURSE_IDENTIFIED" = ⟨cs, true, st⟩) :
    process_images_for_ocr tc inf [⟨fid, fname, Except.ok pages⟩] =
      ⟨sortStrings cs.dedup, [], (if fid = "N/A" then ([] : List String) else [fid]).dedup⟩ := by
  rcases pages with _ | ⟨h0, t0⟩
  · cases hne rfl
  · simp only [process_images_for_ocr, processItems, hscan]
    by_cases hfid : fid = "N/A" <;> simp [hfid]

/-- Failure entry of a single-document batch whose page scan failed, for
a non-sentinel file id. -/
theorem process_single_failure {α : Type} (tc : α → Except String α)
    (inf : α → List String × String) (fid fname : String) (stl : String)
    (pages : List α) (hne : pages ≠ []) (hfid : fid ≠ "N/A")
    (hscan : pageLoop tc inf pages 0 "FAILURE_NO_COURSE_IDENTIFIED" = ⟨[], false, stl⟩) :
    (process_images_for_ocr tc inf [⟨fid, fname, Except.ok pages⟩]).failed_extraction_images =
      [⟨fid, fname, stl⟩] := by
  rcases pages with _ | ⟨h0, t0⟩
  · cases hne rfl
  · simp only [process_images_for_ocr, processItems, hscan]
    simp [addFailure, hfid]

/-- C4 amended: pages are tried in order and processing of a document
stops at the first page whose extraction yields candidates; those
candidates are in the output, no ExtractionFailure is recorded for the
document, and trailing pages never affect the result (the run equals the
run without them).  If no page yields candidates and the file id is not
the sentinel id, exactly one ExtractionFailure is recorded whose reason
is the last page's failure status string. -/
theorem coordinator_first_success_wins {α : Type} (tc : α → Except String α)
    (inf : α → List String × String) (fid fname : String) :
    (∀ (pre post : List α) (p p' : α) (cs : List String) (st : String),
      (∀ q ∈ pre, ∃ q', tc q = .ok q' ∧ (inf q').1 = []) →
      tc p = .ok p' → inf p' = (cs, st) → cs ≠ [] →
      (process_images_for_ocr tc inf
          [⟨fid, fname, Except.ok (pre ++ p :: post)⟩]).failed_extraction_images = [] ∧
      (∀ x ∈ cs, x ∈ (process_images_for_ocr tc inf
          [⟨fid, fname, Except.ok (pre ++ p :: post)⟩]).successfully_extracted_courses) ∧
      process_images_for_ocr tc inf [⟨fid, fname, Except.ok (pre ++ p :: post)⟩] =
        process_images_for_ocr tc inf [⟨fid, fname, Except.ok (pre ++ [p])⟩]) ∧
    (∀ (pre : List α) (plast p' : α) (stl : String),
      (∀ q ∈ pre, ∃ q', tc q = .ok q' ∧ (inf q').1 = []) →
      tc plast = .ok p' → inf p' = ([], stl) → fid ≠ "N/A" →
      (process_images_for_ocr tc inf
          [⟨fid, fname, Except.ok (pre ++ [plast])⟩]).failed_extraction_images =
        [⟨fid, fname, stl⟩]) := by
  constructor
  · intro pre post p p' cs st hpre hp hinf hcs
    have h1 := process_single_success tc inf fid fname cs st (pre ++ p :: post) (by simp)
      (pageLoop_first_success tc inf pre post p p' cs st hpre hp hinf hcs 0
        "FAILURE_NO_COURSE_IDENTIFIED")
    have h2 := process_single_success tc inf fid fname cs st (pre ++ [p]) (by simp)
      (pageLoop_first_success tc inf pre [] p p' cs st hpre hp hinf hcs 0
        "FAILURE_NO_COURSE_IDENTIFIED")
    refine ⟨?_, ?_, ?_⟩
    · rw [h1]
    · intro x hx
      rw [h1]
      exact (List.perm_insertionSort _ _).mem_iff.mpr (List.mem_dedup.mpr hx)
    · rw [h1, h2]
  · intro pre plast p' stl hpre hl hinf hfid
    exact process_single_failure tc inf fid fname stl (pre ++ [plast]) (by simp) hfid
      (pageLoop_all_fail tc inf pre plast p' stl hpre hl hinf 0
        "FAILURE_NO_COURSE_IDENTIFIED")

/-- Witness for C4 on a three-page document whose second page succeeds,
and a two-page document that fails entirely. -/
theorem coordinator_first_success_wins_witness :
    ((process_images_for_ocr (α := Nat) (fun n => Except.ok n)
        (fun n => if n = 1 then (["CourseX"], "SUCCESS_YOLO_OCR")
                  else ([], "FAILURE_LLM_NO_COURSE_IN_TEXT"))
        [⟨"f1", "doc.pdf", Except.ok ([0] ++ 1 :: [2])⟩]).failed_extraction_images = [] ∧
      (∀ x ∈ (["CourseX"] : List String),
        x ∈ (process_images_for_ocr (α := Nat) (fun n => Except.ok n)
          (fun n => if n = 1 then (["CourseX"], "SUCCESS_YOLO_OCR")
                    else ([], "FAILURE_LLM_NO_COURSE_IN_TEXT"))
          [⟨"f1", "doc.pdf", Except.ok ([0] ++ 1 :: [2])⟩]).successfully_extracted_courses) ∧
      process_images_for_ocr (α := Nat) (fun n => Except.ok n)
        (fun n => if n = 1 then (["CourseX"], "SUCCESS_YOLO_OCR")
                  else ([], "FAILURE_LLM_NO_COURSE_IN_TEXT"))
        [⟨"f1", "doc.pdf", Except.ok ([0] ++ 1 :: [2])⟩] =
      process_images_for_ocr (α := Nat) (fun n => Except.ok n)
        (fun n => if n = 1 then (["CourseX"], "SUCCESS_YOLO_OCR")
                  else ([], "FAILURE_LLM_NO_COURSE_IN_TEXT"))
        [⟨"f1", "doc.pdf", Except.ok ([0] ++ [1])⟩]) ∧
    (process_images_for_ocr (α := Nat) (fun n => Except.ok n)
        (fun n => if n = 1 then (["CourseX"], "SUCCESS_YOLO_OCR")
                  else ([], "FAILURE_LLM_NO_COURSE_IN_TEXT"))
        [⟨"f1", "doc.pdf", Except.ok ([0] ++ [2])⟩]).failed_extraction_images =
      [⟨"f1", "doc.pdf", "FAILURE_LLM_NO_COURSE_IN_TEXT"⟩] :=
  ⟨(coordinator_first_success_wins (fun n => Except.ok n)
      (fun n => if n = 1 then (["CourseX"], "SUCCESS_YOLO_OCR")
                else ([], "FAILURE_LLM_NO_COURSE_IN_TEXT")) "f1" "doc.pdf").1
    [0] [2] 1 1 ["CourseX"] "SUCCESS_YOLO_OCR"
    (by intro q hq; simp only [List.mem_singleton] at hq; subst hq; exact ⟨0, rfl, rfl⟩)
    rfl rfl (by decide),
   (coordinator_first_success_wins (fun n => Except.ok n)
      (fun n => if n = 1 then (["CourseX"], "SUCCESS_YOLO_OCR")
                else ([], "FAILURE_LLM_NO_COURSE_IN_TEXT")) "f1" "doc.pdf").2
    [0] 2 2 "FAILURE_LLM_NO_COURSE_IN_TEXT"
    (by intro q hq; simp only [List.mem_singleton] at hq; subst hq; exact ⟨0, rfl, rfl⟩)
    rfl rfl (by decide)⟩

/-- Refutation for C4 as stated: a two-page document with the sentinel
file id whose pages all fail records no ExtractionFailure at all, not
exactly one. -/
theorem coordinator_na_sentinel_counterexample :
    process_images_for_ocr (α := Unit) (fun a => Except.ok a)
        (fun _ => ([], "FAILURE_NO_COURSE_IDENTIFIED"))
        [⟨"N/A", "doc.pdf", Except.ok [(), ()]⟩] =
      ⟨[], [], []⟩ ∧
    (process_images_for_ocr (α := Unit) (fun a => Except.ok a)
        (fun _ => ([], "FAILURE_NO_COURSE_IDENTIFIED"))
        [⟨"N/A", "doc.pdf", Except.ok [(), ()]⟩]).failed_extraction_images.length ≠ 1 :=
  ⟨rfl, by decide⟩

/-- Association-list lookup ignores a right extension when the key is
already bound on the left. -/
theorem lookup_append_isSome (k : String) (l1 l2 : List (String × String))
    (h : (List.lookup k l1).isSome) : List.lookup k (l1 ++ l2) = List.lookup k l1 := by
  induction l1 with
  | nil => simp at h
  | cons p t ih =>
    rcases p with ⟨a, b⟩
    cases hk : (k == a) with
    | true => simp [List.lookup, hk]
    | false =>
      simp only [List.lookup, hk] at h
      simp only [List.cons_append, List.lookup, hk]
      exact ih h

/-- Association-list lookup falls through to the right extension when the
key is unbound on the left. -/
theorem lookup_append_none (k : String) (l1 l2 : List (String × String))
    (h : List.lookup k l1 = none) : List.lookup k (l1 ++ l2) = List.lookup k l2 := by
  induction l1 with
  | nil => rfl
  | cons p t ih =>
    rcases p with ⟨a, b⟩
    cases hk : (k == a) with
    | true => simp [List.lookup, hk] at h
    | false =>
      simp only [List.lookup, hk] at h
      simp only [List.cons_append, List.lookup, hk]
      exact ih h

/-- The cleaned-name list only grows along the construction loop. -/
theorem buildCleanAux_fst_mono (raws : List String) (cl : List String)
    (as : List (String × String)) (c : String) (hc : c ∈ cl) :
    c ∈ (buildCleanAux (cl, as) raws).1 := by
  induction raws generalizing cl as with
  | nil => exact hc
  | cons raw rest ih =>
    simp only [buildCleanAux]
    split_ifs with h1 h2
    · exact ih _ _ (List.mem_append_left _ hc)
    · exact ih _ _ hc
    · exact ih _ _ hc

/-- A binding present in the accumulated map survives the rest of the
construction loop unchanged (first raw name wins). -/
theorem buildCleanAux_lookup_mono (raws : List String) (cl : List String)
    (as : List (String × String)) (k : String) (h : (List.lookup k as).isSome) :
    List.lookup k (buildCleanAux (cl, as) raws).2 = List.lookup k as := by
  induction raws generalizing cl as with
  | nil => rfl
  | cons raw rest ih =>
    simp only [buildCleanAux]
    split_ifs with h1 h2
    · rw [ih _ _ (by rw [lookup_append_isSome k as _ h]; exact h),
        lookup_append_isSome k as _ h]
    · exact ih _ _ h
    · exact ih _ _ h

/-- Lookup in a one-entry association list. -/
theorem lookup_singleton_eq (k a b : String) :
    List.lookup k [(a, b)] = if k == a then some b else none := by
  cases hk : (k == a) with
  | true => simp [List.lookup, hk]
  | false => simp [List.lookup, hk]

/-- Every binding produced by the construction loop maps a cleaned name to
a raw input name that cleans to it. -/
theorem buildCleanAux_lookup_spec (raws : List String) (cl : List String)
    (as : List (String × String)) (c r : String)
    (h : List.lookup c (buildCleanAux (cl, as) raws).2 = some r) :
    List.lookup c as = some r ∨ (r ∈ raws ∧ cleanRaw r = c) := by
  induction raws generalizing cl as with
  | nil => exact Or.inl h
  | cons raw rest ih =>
    simp only [buildCleanAux] at h
    split_ifs at h with h1 h2
    · rcases ih _ _ h with h3 | h3
      · by_cases hs : (List.lookup c as).isSome
        · left; rw [lookup_append_isSome c as _ hs] at h3; exact h3
        · have hn : List.lookup c as = none := Option.not_isSome_iff_eq_none.mp hs
          rw [lookup_append_none c as _ hn, lookup_singleton_eq] at h3
          right
          by_cases hk : c == cleanRaw raw
          · rw [if_pos hk] at h3
            obtain rfl : raw = r := Option.some.inj h3
            exact ⟨List.mem_cons_self _ _, (eq_of_beq hk).symm⟩
          · rw [if_neg hk] at h3; cases h3
      · exact Or.inr ⟨List.mem_cons_of_mem _ h3.1, h3.2⟩
    · rcases ih _ _ h with h3 | h3
      · exact Or.inl h3
      · exact Or.inr ⟨List.mem_cons_of_mem _ h3.1, h3.2⟩
    · rcases ih _ _ h with h3 | h3
      · exact Or.inl h3
      · exact Or.inr ⟨List.mem_cons_of_mem _ h3.1, h3.2⟩

/-- Every raw name with a non-empty cleaned form contributes its cleaned
form to the cleaned-name list. -/
theorem buildCleanAux_mem_fst (raws : List String) (cl : List String)
    (as : List (String × String))
    (H : ∀ c, (List.lookup c as).isSome → c ∈ cl) :
    ∀ raw ∈ raws, cleanRaw raw ≠ "" → cleanRaw raw ∈ (buildCleanAux (cl, as) raws).1 := by
  induction raws generalizing cl as with
  | nil => intro raw h; cases h
  | cons raw0 rest ih =>
    intro raw hr hne
    rcases List.mem_cons.mp hr with rfl | hr2
    · simp only [buildCleanAux]
      split_ifs with h1
      · exact buildCleanAux_fst_mono rest _ _ _
          (List.mem_append_right _ (List.mem_singleton.mpr rfl))
      · refine buildCleanAux_fst_mono rest _ _ _ (H _ ?_)
        cases hval : List.lookup (cleanRaw raw) as with
        | none => rw [hval] at h1; simp at h1
        | some v => rfl
    · simp only [buildCleanAux]
      split_ifs with h1 h2
      · refine ih _ _ ?_ raw hr2 hne
        intro c hs
        by_cases hcs : (List.lookup c as).isSome
        · exact List.mem_append_left _ (H c hcs)
        · have hn := Option.not_isSome_iff_eq_none.mp hcs
          rw [lookup_append_none c as _ hn, lookup_singleton_eq] at hs
          by_cases hk : c == cleanRaw raw0
          · rw [eq_of_beq hk]
            exact List.mem_append_right _ (List.mem_singleton.mpr rfl)
          · rw [if_neg hk] at hs; cases hs
      · exact ih _ _ H raw hr2 hne
      · exact ih _ _ H raw hr2 hne

/-- The cleaned-name list built by the loop holds distinct names. -/
theorem buildCleanAux_fst_nodup (raws : List String) :
    ∀ (cl : List String) (as : List (String × String)), cl.Nodup →
      (∀ c ∈ cl, (List.lookup c as).isSome) →
      (buildCleanAux (cl, as) raws).1.Nodup := by
  induction raws with
  | nil => intro cl as hnd _; exact hnd
  | cons raw rest ih =>
    intro cl as hnd H
    simp only [buildCleanAux]
    split_ifs with h1 h2
    · refine ih _ _ ?_ ?_
      · have hnotin : cleanRaw raw ∉ cl := by
          intro hmem
          have hs := H _ hmem
          rw [Option.isNone_iff_eq_none.mp h2] at hs
          cases hs
        refine List.Nodup.append hnd (List.nodup_singleton _) ?_
        intro a ha hb
        exact hnotin ((List.mem_singleton.mp hb) ▸ ha)
      · intro c hc
        rcases List.mem_append.mp hc with hcl | hc0
        · rw [lookup_append_isSome c as _ (H c hcl)]
          exact H c hcl
        · obtain rfl := List.mem_singleton.mp hc0
          rw [lookup_append_none _ as _ (Option.isNone_iff_eq_none.mp h2),
            lookup_singleton_eq]
          simp
    · exact ih _ _ hnd H
    · exact ih _ _ hnd H

/-- Every cleaned name in the built list is non-empty: raw names cleaning
to the empty string are skipped. -/
theorem buildCleanAux_fst_ne (raws : List String) :
    ∀ (cl : List String) (as : List (String × String)), (∀ c ∈ cl, c ≠ "") →
      ∀ c ∈ (buildCleanAux (cl, as) raws).1, c ≠ "" := by
  induction raws with
  | nil => intro cl as H; exact H
  | cons raw rest ih =>
    intro cl as H
    simp only [buildCleanAux]
    split_ifs with h1 h2
    · refine ih _ _ ?_
      intro c hc
      rcases List.mem_append.mp hc with hcl | hc0
      · exact H c hcl
      · rw [List.mem_singleton.mp hc0]; exact h1
    · exact ih _ _ H
    · exact ih _ _ H

/-- Every cleaned name in the built list is bound in the built map. -/
theorem buildCleanAux_mem_lookup (raws : List String) :
    ∀ (cl : List String) (as : List (String × String)),
      (∀ c ∈ cl, (List.lookup c as).isSome) →
      ∀ c ∈ (buildCleanAux (cl, as) raws).1,
        (List.lookup c (buildCleanAux (cl, as) raws).2).isSome := by
  induction raws with
  | nil => intro cl as H; exact H
  | cons raw rest ih =>
    intro cl as H
    simp only [buildCleanAux]
    split_ifs with h1 h2
    · refine ih _ _ ?_
      intro c hc
      rcases List.mem_append.mp hc with hcl | hc0
      · rw [lookup_append_isSome c as _ (H c hcl)]
        exact H c hcl
      · obtain rfl := List.mem_singleton.mp hc0
        rw [lookup_append_none _ as _ (Option.isNone_iff_eq_none.mp h2),
          lookup_singleton_eq]
        simp
    · exact ih _ _ H
    · exact ih _ _ H

/-- Over a sorted raw-name list, the binding chosen for a cleaned name is
the least raw name that cleans to it. -/
theorem buildCleanAux_min (raws : List String) :
    List.Pairwise (fun a b : String => a ≤ b) raws →
    ∀ (cl : List String) (as : List (String × String)) (c r : String),
      c ≠ "" → List.lookup c as = none →
      List.lookup c (buildCleanAux (cl, as) raws).2 = some r →
      ∀ r2 ∈ raws, cleanRaw r2 = c → r ≤ r2 := by
  induction raws with
  | nil =>
    intro _ cl as c r _ hn h
    rw [show buildCleanAux (cl, as) [] = (cl, as) from rfl] at h
    rw [hn] at h
    cases h
  | cons raw0 rest ih =>
    intro hp cl as c r hc hn h r2 hr2 hcl2
    obtain ⟨hle, hp2⟩ := List.pairwise_cons.mp hp
    simp only [buildCleanAux] at h
    split_ifs at h with h1 h2
    · by_cases hcc : cleanRaw raw0 = c
      · have hbeq : (c == cleanRaw raw0) = true := beq_iff_eq.mpr hcc.symm
        have hsome : List.lookup c (as ++ [(cleanRaw raw0, raw0)]) = some raw0 := by
          rw [lookup_append_none c as _ hn, lookup_singleton_eq, if_pos hbeq]
        have hmono := buildCleanAux_lookup_mono rest (cl ++ [cleanRaw raw0])
          (as ++ [(cleanRaw raw0, raw0)]) c (by rw [hsome]; rfl)
        rw [hmono, hsome] at h
        obtain rfl : raw0 = r := Option.some.inj h
        rcases List.mem_cons.mp hr2 with rfl | hr2b
        · exact le_refl _
        · exact hle r2 hr2b
      · have hbeq : (c == cleanRaw raw0) = false :=
          beq_eq_false_iff_ne.mpr (fun he => hcc he.symm)
        have hn2 : List.lookup c (as ++ [(cleanRaw raw0, raw0)]) = none := by
          rw [lookup_append_none c as _ hn, lookup_singleton_eq, if_neg (by simp [hbeq])]
        rcases List.mem_cons.mp hr2 with rfl | hr2b
        · exact absurd hcl2 hcc
        · exact ih hp2 _ _ c r hc hn2 h r2 hr2b hcl2
    · have hcc : cleanRaw raw0 ≠ c := by
        intro he
        exact h2 (by rw [he, hn]; rfl)
      rcases List.mem_cons.mp hr2 with rfl | hr2b
      · exact absurd hcl2 hcc
      · exact ih hp2 _ _ c r hc hn h r2 hr2b hcl2
    · rcases List.mem_cons.mp hr2 with rfl | hr2b
      · exact absurd (hcl2.symm.trans (not_ne_iff.mp h1)) hc
      · exact ih hp2 _ _ c r hc hn h r2 hr2b hcl2

/-- Composition of the cleaned-map construction with the Reconciler over
any sorted unique raw-name list: exactly one output record per cleaned
name, carrying the least raw name that cleans to it, and no record for an
empty cleaned form. -/
theorem built_generate_spec (uniq : List String) (prev : List SuggestionRecord)
    (force : List String) (resp : CohereResponse) (c : String)
    (hpair : List.Pairwise (fun a b : String => a ≤ b) uniq) (hc : c ≠ "")
    (hcmem : ∃ raw ∈ uniq, cleanRaw raw = c) :
    ((generate_suggestions_from_known_courses (buildCleanAux ([], []) uniq).1
        (fun x => List.lookup x (buildCleanAux ([], []) uniq).2) prev force
        resp).user_processed_data.countP
      (fun r => cleanRaw r.identified_course_name == c)) = 1 ∧
    (∃ r ∈ (generate_suggestions_from_known_courses (buildCleanAux ([], []) uniq).1
        (fun x => List.lookup x (buildCleanAux ([], []) uniq).2) prev force
        resp).user_processed_data,
      cleanRaw r.identified_course_name = c ∧ r.identified_course_name ∈ uniq ∧
        ∀ r2 ∈ uniq, cleanRaw r2 = c → r.identified_course_name ≤ r2) ∧
    (∀ r ∈ (generate_suggestions_from_known_courses (buildCleanAux ([], []) uniq).1
        (fun x => List.lookup x (buildCleanAux ([], []) uniq).2) prev force
        resp).user_processed_data,
      cleanRaw r.identified_course_name ≠ "") := by
  have H0 : ∀ c0 ∈ ([] : List String),
      (List.lookup c0 ([] : List (String × String))).isSome := by simp
  have H0' : ∀ c0 : String,
      (List.lookup c0 ([] : List (String × String))).isSome → c0 ∈ ([] : List String) := by
    intro c0 h
    simp [List.lookup] at h
  have hnodup : (buildCleanAux ([], []) uniq).1.Nodup :=
    buildCleanAux_fst_nodup uniq [] [] List.nodup_nil H0
  obtain ⟨raw1, hraw1u, hraw1c⟩ := hcmem
  have hcin : c ∈ (buildCleanAux ([], []) uniq).1 := by
    rw [← hraw1c]
    exact buildCleanAux_mem_fst uniq [] [] H0' raw1 hraw1u (by rw [hraw1c]; exact hc)
  have hne_entries : ∀ c0 ∈ (buildCleanAux ([], []) uniq).1, c0 ≠ "" :=
    buildCleanAux_fst_ne uniq [] [] (by simp)
  have hlookup_some : ∀ c0 ∈ (buildCleanAux ([], []) uniq).1,
      (List.lookup c0 (buildCleanAux ([], []) uniq).2).isSome :=
    buildCleanAux_mem_lookup uniq [] [] H0
  have horig : ∀ c0 ∈ (buildCleanAux ([], []) uniq).1,
      cleanRaw (originalOf (fun x => List.lookup x (buildCleanAux ([], []) uniq).2) c0) = c0 := by
    intro c0 hc0
    obtain ⟨r0, hr0⟩ := Option.isSome_iff_exists.mp (hlookup_some c0 hc0)
    rcases buildCleanAux_lookup_spec uniq [] [] c0 r0 hr0 with hsp | ⟨_, hsp2⟩
    · simp [List.lookup] at hsp
    · simp only [originalOf]
      rw [hr0]
      exact hsp2
  have hperm := generate_map_perm (buildCleanAux ([], []) uniq).1
    (fun x => List.lookup x (buildCleanAux ([], []) uniq).2) prev force resp
  have hcount : ((generate_suggestions_from_known_courses (buildCleanAux ([], []) uniq).1
      (fun x => List.lookup x (buildCleanAux ([], []) uniq).2) prev force
      resp).user_processed_data.countP
        (fun r => cleanRaw r.identified_course_name == c)) = 1 := by
    have t1 : ((generate_suggestions_from_known_courses (buildCleanAux ([], []) uniq).1
        (fun x => List.lookup x (buildCleanAux ([], []) uniq).2) prev force
        resp).user_processed_data.countP
          (fun r => cleanRaw r.identified_course_name == c)) =
        (((generate_suggestions_from_known_courses (buildCleanAux ([], []) uniq).1
        (fun x => List.lookup x (buildCleanAux ([], []) uniq).2) prev force
        resp).user_processed_data.map (fun r => r.identified_course_name)).countP
          (fun s => cleanRaw s == c)) := by
      rw [List.countP_map]
      rfl
    rw [t1, hperm.countP_eq, List.countP_map]
    have t2 : ((buildCleanAux ([], []) uniq).1.countP
        ((fun s => cleanRaw s == c) ∘
          originalOf (fun x => List.lookup x (buildCleanAux ([], []) uniq).2))) =
        ((buildCleanAux ([], []) uniq).1.countP (fun c0 => c0 == c)) := by
      refine List.countP_congr ?_
      intro c0 hc0
      simp only [Function.comp]
      rw [horig c0 hc0]
    rw [t2, ← List.count_eq_countP]
    exact List.count_eq_one_of_mem hnodup hcin
  refine ⟨hcount, ?_, ?_⟩
  · have hpos : 0 < ((generate_suggestions_from_known_courses (buildCleanAux ([], []) uniq).1
        (fun x => List.lookup x (buildCleanAux ([], []) uniq).2) prev force
        resp).user_processed_data.countP
          (fun r => cleanRaw r.identified_course_name == c)) := by
      rw [hcount]; exact Nat.one_pos
    obtain ⟨r, hrout, hpred⟩ := List.countP_pos_iff.mp hpos
    have hclean_r : cleanRaw r.identified_course_name = c := eq_of_beq hpred
    obtain ⟨c0, hc0, hname⟩ := List.mem_map.mp
      (hperm.mem_iff.mp (List.mem_map_of_mem (fun x => x.identified_course_name) hrout))
    have hclc0 : cleanRaw r.identified_course_name = c0 := by
      rw [← hname]
      exact horig c0 hc0
    have hc0c : c0 = c := hclc0.symm.trans hclean_r
    obtain ⟨rmin, hrmin⟩ := Option.isSome_iff_exists.mp (hlookup_some c (hc0c ▸ hc0))
    have hname_min : r.identified_course_name = rmin := by
      rw [← hname, hc0c]
      simp only [originalOf]
      rw [hrmin]
      rfl
    rcases buildCleanAux_lookup_spec uniq [] [] c rmin hrmin with hbad | ⟨hrmin_mem, _⟩
    · simp [List.lookup] at hbad
    have hmin := buildCleanAux_min uniq hpair [] [] c rmin hc rfl hrmin
    refine ⟨r, hrout, hclean_r, ?_, ?_⟩
    · rw [hname_min]; exact hrmin_mem
    · intro r2 h2 hcl
      rw [hname_min]
      exact hmin r2 h2 hcl
  · intro r hrout
    obtain ⟨c0, hc0, hname⟩ := List.mem_map.mp
      (hperm.mem_iff.mp (List.mem_map_of_mem (fun x => x.identified_course_name) hrout))
    have hclc0 : cleanRaw r.identified_course_name = c0 := by
      rw [← hname]
      exact horig c0 hc0
    rw [hclc0]
    exact hne_entries c0 hc0

/-- C10: in suggestions_only mode, raw names are deduplicated after
cleaning (stripping the unverified marker and cent signs): two distinct
raw names with the same non-empty cleaned form yield exactly one output
record for that cleaned name, whose identified_course_name is the
lexicographically first such raw name; a raw name cleaning to the empty
string yields no record. -/
theorem suggestions_dedup_after_cleaning
    (known_course_names additional_manual_courses : Option (List String))
    (previous_user_data_list : Option (List SuggestionRecord))
    (force_refresh_for_courses : Option (List String)) (resp : CohereResponse)
    (raw1 raw2 : String)
    (h1 : raw1 ∈ known_course_names.getD [] ++ additional_manual_courses.getD [])
    (h2 : raw2 ∈ known_course_names.getD [] ++ additional_manual_courses.getD [])
    (hne : raw1 ≠ raw2) (heq : cleanRaw raw1 = cleanRaw raw2)
    (hcne : cleanRaw raw1 ≠ "") :
    ((suggestionsOnlyBranch known_course_names previous_user_data_list
        additional_manual_courses force_refresh_for_courses resp).user_processed_data.countP
      (fun r => cleanRaw r.identified_course_name == cleanRaw raw1)) = 1 ∧
    (∃ r ∈ (suggestionsOnlyBranch known_course_names previous_user_data_list
        additional_manual_courses force_refresh_for_courses resp).user_processed_data,
      cleanRaw r.identified_course_name = cleanRaw raw1 ∧
        r.identified_course_name ∈ known_course_names.getD [] ++
          additional_manual_courses.getD [] ∧
        ∀ raw ∈ known_course_names.getD [] ++ additional_manual_courses.getD [],
          cleanRaw raw = cleanRaw raw1 → r.identified_course_name ≤ raw) ∧
    (∀ raw0 ∈ known_course_names.getD [] ++ additional_manual_courses.getD [],
      cleanRaw raw0 = "" →
        ∀ r ∈ (suggestionsOnlyBranch known_course_names previous_user_data_list
            additional_manual_courses force_refresh_for_courses resp).user_processed_data,
          r.identified_course_name ≠ raw0) := by
  have hr1ne : raw1 ≠ "" := by
    intro h0
    exact hcne (by rw [h0]; rfl)
  have memu : ∀ raw : String,
      raw ∈ sortStrings (((known_course_names.getD [] ++
          additional_manual_courses.getD []).filter (fun s => s ≠ "")).dedup) ↔
        (raw ∈ known_course_names.getD [] ++ additional_manual_courses.getD [] ∧
          raw ≠ "") := by
    intro raw
    rw [mem_sortStrings, List.mem_dedup, List.mem_filter]
    simp
  have hpair : List.Pairwise (fun a b : String => a ≤ b)
      (sortStrings (((known_course_names.getD [] ++
        additional_manual_courses.getD []).filter (fun s => s ≠ "")).dedup)) :=
    List.sorted_insertionSort _ _
  have H0' : ∀ c0 : String,
      (List.lookup c0 ([] : List (String × String))).isSome → c0 ∈ ([] : List String) := by
    intro c0 h
    simp [List.lookup] at h
  have hcin : cleanRaw raw1 ∈ (buildCleanAux ([], [])
      (sortStrings (((known_course_names.getD [] ++
        additional_manual_courses.getD []).filter (fun s => s ≠ "")).dedup))).1 :=
    buildCleanAux_mem_fst _ [] [] H0' raw1 ((memu raw1).mpr ⟨h1, hr1ne⟩) hcne
  have hbne : ¬((buildCleanAux ([], [])
      (sortStrings (((known_course_names.getD [] ++
        additional_manual_courses.getD []).filter (fun s => s ≠ "")).dedup))).1 = []) :=
    List.ne_nil_of_mem hcin
  have key : suggestionsOnlyBranch known_course_names previous_user_data_list
      additional_manual_courses force_refresh_for_courses resp =
      generate_suggestions_from_known_courses
        (buildCleanAux ([], [])
          (sortStrings (((known_course_names.getD [] ++
            additional_manual_courses.getD []).filter (fun s => s ≠ "")).dedup))).1
        (fun x => List.lookup x (buildCleanAux ([], [])
          (sortStrings (((known_course_names.getD [] ++
            additional_manual_courses.getD []).filter (fun s => s ≠ "")).dedup))).2)
        (previous_user_data_list.getD []) (force_refresh_for_courses.getD []) resp := by
    simp only [suggestionsOnlyBranch]
    rw [if_neg hbne]
  have spec := built_generate_spec
    (sortStrings (((known_course_names.getD [] ++
      additional_manual_courses.getD []).filter (fun s => s ≠ "")).dedup))
    (previous_user_data_list.getD []) (force_refresh_for_courses.getD []) resp
    (cleanRaw raw1) hpair hcne ⟨raw1, (memu raw1).mpr ⟨h1, hr1ne⟩, rfl⟩
  refine ⟨?_, ?_, ?_⟩
  · rw [key]
    exact spec.1
  · obtain ⟨r, hrout, hcl, hmemu, hminu⟩ := spec.2.1
    refine ⟨r, by rw [key]; exact hrout, hcl, ((memu _).mp hmemu).1, ?_⟩
    intro raw hraw hclraw
    have hrawne : raw ≠ "" := by
      intro h0
      rw [h0] at hclraw
      exact hcne (hclraw.symm.trans rfl)
    exact hminu raw ((memu raw).mpr ⟨hraw, hrawne⟩) hclraw
  · intro raw0 hraw0 hcl0 r hrout hname
    rw [key] at hrout
    have hr3 := spec.2.2 r hrout
    rw [hname] at hr3
    exact hr3 hcl0

/-- Witness for C10: B Course and its unverified-marker variant collapse
to one record named B Course. -/
theorem suggestions_dedup_after_cleaning_witness :
    (("B Course" ∈ (some ["B Course [UNVERIFIED]", "B Course"] :
          Option (List String)).getD [] ++ (none : Option (List String)).getD [] ∧
      "B Course [UNVERIFIED]" ∈ (some ["B Course [UNVERIFIED]", "B Course"] :
          Option (List String)).getD [] ++ (none : Option (List String)).getD [] ∧
      "B Course" ≠ "B Course [UNVERIFIED]" ∧
      cleanRaw "B Course" = cleanRaw "B Course [UNVERIFIED]" ∧
      cleanRaw "B Course" ≠ "") ∧
    (((suggestionsOnlyBranch (some ["B Course [UNVERIFIED]", "B Course"]) none none none
        (CohereResponse.error "x")).user_processed_data.countP
      (fun r => cleanRaw r.identified_course_name == cleanRaw "B Course")) = 1 ∧
    (∃ r ∈ (suggestionsOnlyBranch (some ["B Course [UNVERIFIED]", "B Course"]) none none none
        (CohereResponse.error "x")).user_processed_data,
      cleanRaw r.identified_course_name = cleanRaw "B Course" ∧
        r.identified_course_name ∈ (some ["B Course [UNVERIFIED]", "B Course"] :
          Option (List String)).getD [] ++ (none : Option (List String)).getD [] ∧
        ∀ raw ∈ (some ["B Course [UNVERIFIED]", "B Course"] :
            Option (List String)).getD [] ++ (none : Option (List String)).getD [],
          cleanRaw raw = cleanRaw "B Course" → r.identified_course_name ≤ raw) ∧
    (∀ raw0 ∈ (some ["B Course [UNVERIFIED]", "B Course"] :
        Option (List String)).getD [] ++ (none : Option (List String)).getD [],
      cleanRaw raw0 = "" →
        ∀ r ∈ (suggestionsOnlyBranch (some ["B Course [UNVERIFIED]", "B Course"]) none none
            none (CohereResponse.error "x")).user_processed_data,
          r.identified_course_name ≠ raw0))) :=
  ⟨⟨by decide, by decide, by decide, by decide, by decide⟩,
   suggestions_dedup_after_cleaning (some ["B Course [UNVERIFIED]", "B Course"]) none none
     none (CohereResponse.error "x") "B Course" "B Course [UNVERIFIED]" (by decide)
     (by decide) (by decide) (by decide) (by decide)⟩
